import Mathlib

/-!
Verification of the invoice field-extraction engine (InvoiceAgentLite).

Python strings are embedded as `List Char` (sequences of Unicode code
points).  Regular-expression searches from the source are hand-compiled to
matcher functions: for each concrete pattern appearing in the source a
function tries to match the pattern at the head of a list, and `searchAt`
scans positions left to right, mirroring `re.search` leftmost-match
semantics.  Python `float`/`int` parsing is embedded as `Option`-valued
parsers; Python `round(x, 2)` (round-half-to-even) is embedded on `ℚ`.
The unicode NFKC normalisation performed by the external `unicodedata`
collaborator is modelled character-wise on the compatibility range the
rule pack exercises (fullwidth ASCII forms, ideographic space, fullwidth
yen), identity elsewhere; the decimal-digit class is modelled as the ASCII
digits.
-/

abbrev Str := List Char

/-- Decimal digit class used by the patterns (ASCII model of `\d`). -/
def pyDigit (c : Char) : Bool := c.isDigit

/-- Whitespace class of Python regex `\s` / `str.strip` (ASCII model). -/
def pySpace (c : Char) : Bool :=
  c = ' ' || c = '\t' || c = '\n' || c = '\x0d' || c = '\x0b' || c = '\x0c'

/-- Numeric value of a decimal-digit string, as `int()` computes it. -/
def digitsVal (s : Str) : Nat :=
  s.foldl (fun a c => a * 10 + (c.toNat - 48)) 0

/-- Removal of grouping commas, `str.replace(",", "")`. -/
def stripCommas (s : Str) : Str := s.filter (fun c => c ≠ ',')

/-- Leftmost-match search: try the position matcher at each position from
the left, as `re.search` does. -/
def searchAt {α : Type} (f : Str → Option α) : Str → Option α
  | [] => f []
  | c :: r => (f (c :: r)).orElse (fun _ => searchAt f r)

/-- Match a literal string at the head, returning the rest. -/
def litM : Str → Str → Option Str
  | [], l => some l
  | p :: ps, c :: r => if c = p then litM ps r else none
  | _ :: _, [] => none

/-- Consume one optional character of a class (regex `X?` where what
follows is disjoint from the class, so no backtracking is needed). -/
def skipOptC (p : Char → Bool) : Str → Str
  | [] => []
  | c :: r => if p c then r else c :: r

/-- Greedy `\d{1,2}` with backtracking, in continuation style: try two
digits first, then one. -/
def matchD12 {β : Type} (k : Str → Str → Option β) : Str → Option β
  | [] => none
  | [a] => if pyDigit a then k [a] [] else none
  | a :: b :: r =>
    if pyDigit a then
      if pyDigit b then (k [a, b] r).orElse (fun _ => k [a] (b :: r))
      else k [a] (b :: r)
    else none

/-- Exactly four digits (regex `\d{4}`), returning them and the rest. -/
def dig4 : Str → Option (Str × Str)
  | a :: b :: c :: d :: r =>
    if pyDigit a && pyDigit b && pyDigit c && pyDigit d then
      some ([a, b, c, d], r)
    else none
  | _ => none

/-- Python `round(x, 2)` on exact rationals: round half to even at two
decimal places.  Stated in integer arithmetic: `f` is `⌊x * 100⌋`
(floor division of `x.num * 100` by the positive denominator), `rem` the
remainder, and the three branches are `rem/den < 1/2`, `1/2 < rem/den`
and the half-to-even tie. -/
def round2 (x : ℚ) : ℚ :=
  let num := x.num * 100
  let den : ℤ := (x.den : ℤ)
  let f : ℤ := Int.fdiv num den
  let rem := num - f * den
  let n : ℤ :=
    if 2 * rem < den then f
    else if den < 2 * rem then f + 1
    else if f % 2 = 0 then f else f + 1
  Rat.divInt n 100

/-- Python `str.zfill(n)`: left-pad with zeros to width `n`, keeping a
leading sign in front of the padding. -/
def zfill (n : Nat) (s : Str) : Str :=
  if n ≤ s.length then s
  else
    match s with
    | [] => List.replicate n '0'
    | c :: r =>
      if c = '+' || c = '-' then c :: (List.replicate (n - s.length) '0' ++ r)
      else List.replicate (n - s.length) '0' ++ s

/-- Python `str.split(sep)` for a one-character separator. -/
def pySplit (sep : Char) : Str → List Str
  | [] => [[]]
  | c :: r =>
    let ps := pySplit sep r
    if c = sep then [] :: ps
    else
      match ps with
      | p :: rest => (c :: p) :: rest
      | [] => [[c]]

/-- Python `str.strip()`: drop leading and trailing whitespace. -/
def pyStrip (l : Str) : Str :=
  ((l.dropWhile pySpace).reverse.dropWhile pySpace).reverse

/-- Character-wise model of NFKC compatibility folding on the range the
rule pack exercises: fullwidth ASCII forms fold to ASCII, the ideographic
space to a space, the fullwidth yen sign to the yen sign; identity
elsewhere. -/
def nfkcChar (c : Char) : Char :=
  if c = '\u3000' then ' '
  else if c = '￥' then '¥'
  else if 0xFF01 ≤ c.toNat ∧ c.toNat ≤ 0xFF5E then Char.ofNat (c.toNat - 0xFEE0)
  else c

/-- Collapse runs of space and tab to a single space,
`re.sub(r"[ \t]+", " ", t)`. -/
def collapseWsGo (prevWs : Bool) : Str → Str
  | [] => []
  | c :: r =>
    if c = ' ' || c = '\t' then
      if prevWs then collapseWsGo true r else ' ' :: collapseWsGo true r
    else c :: collapseWsGo false r

/-- The `_normalize` helper of the Japanese rule pack: NFKC fold, replace
the ideographic space, collapse horizontal whitespace runs. -/
def jpNormalize (t : Str) : Str :=
  let t1 := t.map nfkcChar
  let t2 := t1.map (fun c => if c = '\u3000' then ' ' else c)
  collapseWsGo false t2

/-- Line-break characters recognised by Python `str.splitlines`. -/
def isLineBreakC (c : Char) : Bool :=
  c = '\n' || c = '\x0d' || c = '\x0b' || c = '\x0c' ||
  c = '\x1c' || c = '\x1d' || c = '\x1e' || c = '\x85' ||
  c = '\u2028' || c = '\u2029'

/-- Worker for `str.splitlines` (terminator semantics: no trailing empty
line). -/
def pySplitlinesGo (cur : Str) : Str → List Str
  | [] => [cur.reverse]
  | '\x0d' :: '\n' :: r =>
    cur.reverse :: (match r with | [] => [] | _ :: _ => pySplitlinesGo [] r)
  | c :: r =>
    if isLineBreakC c then
      cur.reverse :: (match r with | [] => [] | _ :: _ => pySplitlinesGo [] r)
    else pySplitlinesGo (c :: cur) r

/-- Python `str.splitlines()`. -/
def pySplitlines : Str → List Str
  | [] => []
  | l => pySplitlinesGo [] l

/-!
The Japanese rule pack of `app.py`: the compiled constants `AMOUNT_RE`,
`DATE_RE`, `VENDOR_RE` and the function `extract_fields_jp`.
-/

/-- One repetition block of regex `(?:,\d{3})+`: greedily consume the
maximal sequence of comma-plus-three-digit groups, returning the consumed
part and the rest. -/
def commaTriples : Str → (Str × Str)
  | ',' :: a :: b :: c :: r =>
    if pyDigit a && pyDigit b && pyDigit c then
      let p := commaTriples r
      (',' :: a :: b :: c :: p.1, p.2)
    else ([], ',' :: a :: b :: c :: r)
  | l => ([], l)

/-- One backtracking width for `\d{1,3}(?:,\d{3})+`: take exactly `n`
digits, then require at least one comma-triple. -/
def try13 (n : Nat) (l : Str) : Option Str :=
  let pre := l.take n
  if pre.length = n && pre.all pyDigit then
    let p := commaTriples (l.drop n)
    if p.1.isEmpty then none else some (pre ++ p.1)
  else none

/-- The capture group of `AMOUNT_RE`, `(\d{1,3}(?:,\d{3})+|\d+)`, matched
at the head of `l` (greedy widths 3, 2, 1 for the first alternative, then
the plain-digits alternative). -/
def jpNumGroup (l : Str) : Option Str :=
  ((try13 3 l).orElse (fun _ => try13 2 l)).orElse
    (fun _ => (try13 1 l).orElse
      (fun _ =>
        let ds := l.takeWhile pyDigit
        if ds.isEmpty then none else some ds))

/-- The label tail `請求(?:金額|合計)` after optional `ご` and `\s*`. -/
def jpAmountLabelA (l : Str) : Option Str :=
  (litM ("請求").toList (l.dropWhile pySpace)).bind
    (fun r2 => (litM ("金額").toList r2).orElse (fun _ => litM ("合計").toList r2))

/-- The label alternation of `AMOUNT_RE`,
`(?:ご?\s*請求(?:金額|合計)|税込?合計|合計)`, matched at the head;
returns the rest after the label. -/
def jpAmountLabel (l : Str) : Option Str :=
  ((match l with
    | 'ご' :: r => jpAmountLabelA r
    | _ => none).orElse (fun _ => jpAmountLabelA l)).orElse
    (fun _ =>
      ((match l with
        | '税' :: r =>
          (match r with
           | '込' :: r2 => (litM ("合計").toList r2).orElse
               (fun _ => litM ("合計").toList ('込' :: r2))
           | _ => litM ("合計").toList r)
        | _ => none)).orElse
        (fun _ => litM ("合計").toList l))

/-- `AMOUNT_RE` matched at the head of `l`: label, `[^\d]*`, then the
numeric capture group (the trailing `\s*円?` constrains nothing the group
depends on). -/
def jpAmountAt (l : Str) : Option Str :=
  (jpAmountLabel l).bind (fun r => jpNumGroup (r.dropWhile (fun c => !pyDigit c)))

/-- The optional day marker `日?` at the end of the `DATE_RE` group:
consumed into the group exactly when present. -/
def jpDayTail : Str → Str
  | [] => []
  | c :: _ => if c = '日' then ['日'] else []

/-- The capture group of `DATE_RE`,
`(\d{4}[./年]\s*\d{1,2}[./月]\s*\d{1,2}日?)`, matched at the head. -/
def jpDateGroupAt (l : Str) : Option Str :=
  match dig4 l with
  | none => none
  | some (y, r1) =>
    match r1 with
    | [] => none
    | s1 :: r2 =>
      if s1 = '.' || s1 = '/' || s1 = '年' then
        let w1 := r2.takeWhile pySpace
        let r3 := r2.dropWhile pySpace
        matchD12 (fun m r4 =>
          match r4 with
          | [] => none
          | s2 :: r5 =>
            if s2 = '.' || s2 = '/' || s2 = '月' then
              let w2 := r5.takeWhile pySpace
              let r6 := r5.dropWhile pySpace
              matchD12 (fun d r7 =>
                some (y ++ s1 :: (w1 ++ m ++ s2 :: (w2 ++ d ++ jpDayTail r7)))) r6
            else none) r3
      else none

/-- The label alternation of `DATE_RE`,
`(?:発行日|請求日|納品日|支払期限)`; returns the rest after the label. -/
def jpDateLabel (l : Str) : Option Str :=
  (((litM ("発行日").toList l).orElse (fun _ => litM ("請求日").toList l)).orElse
    (fun _ => litM ("納品日").toList l)).orElse
    (fun _ => litM ("支払期限").toList l)

/-- `DATE_RE` matched at the head of `l`: label, `[^\d]*`, then the date
capture group. -/
def jpDateAt (l : Str) : Option Str :=
  (jpDateLabel l).bind (fun r => jpDateGroupAt (r.dropWhile (fun c => !pyDigit c)))

/-- First alternative of `VENDOR_RE`,
`(?:株式会社|有限会社|合同会社)[^\n]+`, matched at the head; returns the
whole match. -/
def vendorAlt1 (l : Str) : Option Str :=
  match (((litM ("株式会社").toList l).map (fun r => (("株式会社").toList, r))).orElse
      (fun _ => (litM ("有限会社").toList l).map (fun r => (("有限会社").toList, r)))).orElse
      (fun _ => (litM ("合同会社").toList l).map (fun r => (("合同会社").toList, r))) with
  | none => none
  | some (pre, r) =>
    let run := r.takeWhile (fun c => c ≠ '\n')
    if run.isEmpty then none else some (pre ++ run)

/-- Lazy scan for the second alternative `.+?御中`: after at least one
consumed non-newline character, stop at the first occurrence of the
honorific. -/
def gochuScan (acc : Str) : Str → Option Str
  | '御' :: '中' :: _ => some (acc.reverse ++ ('御' :: '中' :: []))
  | c :: r => if c = '\n' then none else gochuScan (c :: acc) r
  | [] => none

/-- Second alternative of `VENDOR_RE`, `.+?御中`, matched at the head. -/
def vendorAlt2 : Str → Option Str
  | [] => none
  | c :: r => if c = '\n' then none else gochuScan [c] r

/-- `VENDOR_RE` matched at the head (alternation order of the source). -/
def vendorAt (l : Str) : Option Str :=
  (vendorAlt1 l).orElse (fun _ => vendorAlt2 l)

/-- Python `str.replace("御中", "")`: left-to-right removal of all
occurrences. -/
def removeGochu : Str → Str
  | '御' :: '中' :: r => removeGochu r
  | c :: r => c :: removeGochu r
  | [] => []

/-- The substitution chain applied to the matched date of
`extract_fields_jp`: replace the kanji markers and the separators with a
dash, drop the day marker, then remove all whitespace
(`re.sub(r"\s+", "", date)`). -/
def jpDateNormalize (s : Str) : Str :=
  let s1 := s.map (fun c => if c = '年' then '-' else c)
  let s2 := s1.map (fun c => if c = '月' then '-' else c)
  let s3 := s2.filter (fun c => c ≠ '日')
  let s4 := s3.map (fun c => if c = '/' then '-' else c)
  let s5 := s4.map (fun c => if c = '.' then '-' else c)
  s5.filter (fun c => !pySpace c)

/-- The equal-weight score of `extract_fields_jp`:
`sum(x is not None for x in [amount, date, vendor]) / 3`. -/
def jpScore (amount : Option ℤ) (date vendor : Option Str) : ℚ :=
  Rat.divInt ((if amount.isSome then 1 else 0) + (if date.isSome then 1 else 0) +
    (if vendor.isSome then 1 else 0)) 3

/-- The record returned by `extract_fields_jp`. -/
structure JpFields where
  amount : Option ℤ
  date : Option Str
  vendor : Option Str
  confidence : ℚ
  needs_review : Str
deriving DecidableEq, Repr

/-- `extract_fields_jp` of the Japanese rule pack. -/
def extract_fields_jp (text : Str) : JpFields :=
  let t := jpNormalize text
  let amount := (searchAt jpAmountAt t).map (fun g => (digitsVal (stripCommas g) : ℤ))
  let date := (searchAt jpDateAt t).map jpDateNormalize
  let head := List.intercalate ['\n'] ((pySplitlines t).take 20)
  let vendor := (searchAt vendorAt head).map (fun g => pyStrip (removeGochu g))
  { amount := amount, date := date, vendor := vendor,
    confidence := round2 (jpScore amount date vendor),
    needs_review := if jpScore amount date vendor < Rat.divInt 4 5
                    then ("TRUE").toList else ("FALSE").toList }

/-!
The `InvoiceProcessor` extractors of `app.py` (`AMOUNT_PATTERNS`,
`DATE_PATTERNS`, `extract_amount`, `extract_issue_date`,
`calculate_confidence`), and of `main.py` (`detect_currency`,
`calculate_confidence`), plus the Python numeric-literal parsers.
-/

/-- Python `float(s)` on the strings reachable from the amount patterns:
optional sign, an integer part and/or a dot-separated fractional part,
all ASCII digits.  (Exponents, infinities, nan and underscores never
occur in the matched substrings and are not modelled.) -/
def pyFloat (s : Str) : Option ℚ :=
  match s with
  | [] => none
  | c :: r =>
    let sgn : ℤ := if c = '-' then -1 else 1
    let body := if c = '-' || c = '+' then r else c :: r
    let ip := body.takeWhile pyDigit
    let rest := body.dropWhile pyDigit
    match rest with
    | [] =>
      if ip.isEmpty then none
      else some (Rat.divInt (sgn * (digitsVal ip : ℤ)) 1)
    | '.' :: fr =>
      if fr.all pyDigit && (!ip.isEmpty || !fr.isEmpty) then
        some (Rat.divInt
          (sgn * ((digitsVal ip : ℤ) * 10 ^ fr.length + (digitsVal fr : ℤ)))
          (10 ^ fr.length))
      else none
    | _ => none

/-- Python `int(s)` in base 10: optional sign then decimal digits.
(Whitespace trimming and underscores never occur in the reachable
inputs and are not modelled.) -/
def pyIntOpt (s : Str) : Option ℤ :=
  match s with
  | [] => none
  | c :: r =>
    if c = '-' then
      if !r.isEmpty && r.all pyDigit then some (-(digitsVal r : ℤ)) else none
    else if c = '+' then
      if !r.isEmpty && r.all pyDigit then some ((digitsVal r : ℤ)) else none
    else if (c :: r).all pyDigit then some ((digitsVal (c :: r) : ℤ)) else none

/-- The character class `[\\d,]` of `AMOUNT_PATTERNS`: inside the raw
string the doubled backslash makes it the literal characters backslash,
`d` and comma (with `re.IGNORECASE` also `D`), not the digit class. -/
def amtCls (c : Char) : Bool := c = '\\' || c = 'd' || c = 'D' || c = ','

/-- The class `[\s:：]` separating the label from the number. -/
def wsColon (c : Char) : Bool := pySpace c || c = ':' || c = '：'

/-- The capture group `([\\d,]+\.?\d*)` matched at the head: a nonempty
run of the literal class, an optional dot, then digits; the three parts
are over disjoint characters, so greedy matching needs no backtracking. -/
def amtNumGroup (l : Str) : Option Str :=
  let a := l.takeWhile amtCls
  if a.isEmpty then none
  else
    match l.dropWhile amtCls with
    | '.' :: r2 => some (a ++ '.' :: r2.takeWhile pyDigit)
    | r => some (a ++ r.takeWhile pyDigit)

/-- `AMOUNT_PATTERNS[0]`, `合計[\s:：]*([\\d,]+\.?\d*)`, at the head. -/
def amtP1At (l : Str) : Option Str :=
  match l with
  | '合' :: '計' :: r => amtNumGroup (r.dropWhile wsColon)
  | _ => none

/-- `AMOUNT_PATTERNS[1]`, `請求金額[\s:：]*([\\d,]+\.?\d*)`, at the head. -/
def amtP2At (l : Str) : Option Str :=
  match l with
  | '請' :: '求' :: '金' :: '額' :: r => amtNumGroup (r.dropWhile wsColon)
  | _ => none

/-- The capture group `([\\d,]+)` of the symbol-anchored patterns. -/
def amtClsGroup (l : Str) : Option Str :=
  let a := l.takeWhile amtCls
  if a.isEmpty then none else some a

/-- `AMOUNT_PATTERNS[2]`, `¥\s?([\\d,]+)`, at the head. -/
def amtP3At (l : Str) : Option Str :=
  match l with
  | '¥' :: r => amtClsGroup (skipOptC pySpace r)
  | _ => none

/-- `AMOUNT_PATTERNS[3]`, `JPY\s?([\\d,]+)` with `re.IGNORECASE`, at the
head. -/
def amtP4At (l : Str) : Option Str :=
  match l with
  | a :: b :: c :: r =>
    if a.toLower = 'j' && b.toLower = 'p' && c.toLower = 'y' then
      amtClsGroup (skipOptC pySpace r)
    else none
  | _ => none

/-- One iteration of the `extract_amount` loop: search one pattern and
try to parse the comma-stripped group as a float; `None` both when the
pattern does not match and when parsing fails (the `ValueError` branch
falls through to the next pattern). -/
def tryAmtPat (pat : Str → Option Str) (t : Str) : Option ℚ :=
  (searchAt pat t).bind (fun g => pyFloat (stripCommas g))

/-- `InvoiceProcessor.extract_amount` of `app.py`. -/
def extract_amount (t : Str) : Option ℚ :=
  ((tryAmtPat amtP1At t).orElse (fun _ => tryAmtPat amtP2At t)).orElse
    (fun _ => (tryAmtPat amtP3At t).orElse (fun _ => tryAmtPat amtP4At t))

/-- Core of the bare date patterns: `\d{4}`, a separator from `sep`,
`\d{1,2}`, a separator from `sep`, `\d{1,2}`, at the head; returns the
capture group. -/
def dateYMD (sep : Char → Bool) (l : Str) : Option Str :=
  match dig4 l with
  | none => none
  | some (y, r1) =>
    match r1 with
    | [] => none
    | s1 :: r2 =>
      if sep s1 then
        matchD12 (fun m r3 =>
          match r3 with
          | [] => none
          | s2 :: r4 =>
            if sep s2 then
              matchD12 (fun d _ => some (y ++ s1 :: (m ++ s2 :: d))) r4
            else none) r2
      else none

/-- `DATE_PATTERNS[0]` of `app.py`: the label `発行日`, an optional
colon `[:：]?`, an optional `\s?`, then `\d{4}`, a slash-or-dash
separator, `\d{1,2}`, another slash-or-dash separator, `\d{1,2}`, at the
head; returns the capture group. -/
def dateP1At (l : Str) : Option Str :=
  (litM ("発行日").toList l).bind (fun r0 =>
    dateYMD (fun c => c = '/' || c = '-')
      (skipOptC pySpace (skipOptC (fun c => c = ':' || c = '：') r0)))

/-- `DATE_PATTERNS[1]` of `app.py`, `(\d{4}[.-]\d{1,2}[.-]\d{1,2})`, at
the head. -/
def dateP2At (l : Str) : Option Str :=
  dateYMD (fun c => c = '.' || c = '-') l

/-- `DATE_PATTERNS[2]` of `app.py`, `(\d{4}年\d{1,2}月\d{1,2}日)`, at the
head. -/
def dateP3At (l : Str) : Option Str :=
  match dig4 l with
  | none => none
  | some (y, r1) =>
    match r1 with
    | [] => none
    | s1 :: r2 =>
      if s1 = '年' then
        matchD12 (fun m r3 =>
          match r3 with
          | [] => none
          | s2 :: r4 =>
            if s2 = '月' then
              matchD12 (fun d r5 =>
                match r5 with
                | [] => none
                | c :: _ =>
                  if c = '日' then some (y ++ s1 :: (m ++ s2 :: (d ++ ['日'])))
                  else none) r4
            else none) r2
      else none

/-- The separator-normalisation chain of `extract_issue_date`:
`re.sub(r"[年月]", "-", s)`, `re.sub(r"日", "", s)`,
`re.sub(r"[./]", "-", s)`. -/
def normalizeDateStr (s : Str) : Str :=
  let s1 := s.map (fun c => if c = '年' || c = '月' then '-' else c)
  let s2 := s1.filter (fun c => c ≠ '日')
  s2.map (fun c => if c = '.' || c = '/' then '-' else c)

/-- The per-pattern body of `extract_issue_date`: normalise the matched
group, then require exactly three dash-separated components and zero-pad
them; anything else falls through to the next pattern. -/
def normDate (g : Str) : Option Str :=
  let s := normalizeDateStr g
  if ('-' : Char) ∈ s then
    match pySplit '-' s with
    | [y, m, d] => some (zfill 4 y ++ '-' :: (zfill 2 m ++ '-' :: zfill 2 d))
    | _ => none
  else none

/-- `InvoiceProcessor.extract_issue_date` of `app.py`. -/
def extract_issue_date (t : Str) : Option Str :=
  (((searchAt dateP1At t).bind normDate).orElse
    (fun _ => (searchAt dateP2At t).bind normDate)).orElse
    (fun _ => (searchAt dateP3At t).bind normDate)

/-- `InvoiceProcessor.calculate_confidence` of `app.py`: equal-weight
count of present fields over three, rounded to two decimals. -/
def calculate_confidence_app (amount : Option ℚ) (issue_date vendor : Option Str) : ℚ :=
  let hits : ℤ := (if amount.isSome then 1 else 0) + (if issue_date.isSome then 1 else 0) +
    (if vendor.isSome then 1 else 0)
  round2 (Rat.divInt hits 3)

/-- The review flag of `app.py` `process_pdf`:
`"TRUE" if confidence < 0.67 else "FALSE"`. -/
def needsReviewApp (confidence : ℚ) : Str :=
  if confidence < Rat.divInt 67 100 then ("TRUE").toList else ("FALSE").toList

/-- The raw excerpt of `app.py` `process_pdf`: `text[:200].strip()`, plus
an ellipsis marker when the text is longer than 200 characters. -/
def rawExcerptApp (text : Str) : Str :=
  let e := pyStrip (text.take 200)
  if 200 < text.length then e ++ ("...").toList else e

/-- The raw excerpt (`raw_text`) of `main.py` `process_pdf`:
`text[:500] + "..." if len(text) > 500 else text`. -/
def rawTextMain (text : Str) : Str :=
  if 500 < text.length then text.take 500 ++ ("...").toList else text

/-- Substring containment, `pat in t` / an unanchored `re.search` of a
literal. -/
def hasSub (pat : Str) : Str → Bool
  | [] => pat.isEmpty
  | c :: r => (litM pat (c :: r)).isSome || hasSub pat r

/-- Whether `re.search(r"[￥¥]|JPY|円", text)` finds a match. -/
def hasJpyTok (t : Str) : Bool :=
  t.any (fun c => c = '￥' || c = '¥' || c = '円') || hasSub (("JPY").toList) t

/-- Whether `re.search(r"\$|USD", text)` finds a match. -/
def hasUsdTok (t : Str) : Bool :=
  t.any (fun c => c = '$') || hasSub (("USD").toList) t

/-- Whether `re.search(r"€|EUR", text)` finds a match. -/
def hasEurTok (t : Str) : Bool :=
  t.any (fun c => c = '€') || hasSub (("EUR").toList) t

/-- `InvoiceProcessor.detect_currency` of `main.py`. -/
def detect_currency (t : Str) : Str :=
  if hasJpyTok t then ("JPY").toList
  else if hasUsdTok t then ("USD").toList
  else if hasEurTok t then ("EUR").toList
  else ("JPY").toList

/-- `InvoiceProcessor.calculate_confidence` of `main.py`: hits over the
key fields `vendor`, `issue_date`, `total`, a half-point bonus each for
`subtotal`, `tax` and `invoice_no`, normalised by
`len(key_fields) + 1.5` and rounded to two decimals. -/
def calculate_confidence_main (vendor issue_date : Option Str)
    (total subtotal tax : Option ℚ) (invoice_no : Option Str) : ℚ :=
  let twiceHits : ℤ := (if vendor.isSome then 2 else 0) + (if issue_date.isSome then 2 else 0) +
    (if total.isSome then 2 else 0) +
    (if subtotal.isSome then 1 else 0) + (if tax.isSome then 1 else 0) +
    (if invoice_no.isSome then 1 else 0)
  round2 (Rat.divInt twiceHits 9)

/-- The review flag of `main.py` `process_pdf`: the boolean
`confidence < 0.67`. -/
def needsReviewMain (confidence : ℚ) : Bool :=
  confidence < Rat.divInt 67 100

/-!
The record assemblers (`process_pdf` of both variants), parameterised by
the extractor functions so that the exception propagation of the single
`try`/`except` block around the whole body is visible: a raised extractor
error is re-raised in `app.py` and converted to an `ok = False`
notes-only result in `main.py`.
-/

/-- A Python exception value (only its message is observable here). -/
inductive PyExc where
  | exc : Str → PyExc
deriving DecidableEq, Repr

/-- The record assembled by `app.py` `process_pdf`. -/
structure RecordApp where
  file : Str
  vendor : Option Str
  date : Option Str
  amount : Option ℚ
  confidence : ℚ
  needs_review : Str
  raw_excerpt : Str
deriving DecidableEq, Repr

/-- `InvoiceProcessor.process_pdf` of `app.py`, with the text extractor
and the three field extractors passed in as possibly-raising functions.
The whole body is one `try` whose `except` clause logs and re-raises, so
any raised error propagates to the caller unchanged. -/
def processPdfApp (fname : Str)
    (exText : List Nat → Except PyExc Str)
    (exAmount : Str → Except PyExc (Option ℚ))
    (exDate : Str → Except PyExc (Option Str))
    (exVendor : Str → Except PyExc (Option Str))
    (pdf : List Nat) : Except PyExc RecordApp := do
  let text ← exText pdf
  let amount ← exAmount text
  let issue_date ← exDate text
  let vendor ← exVendor text
  let confidence := calculate_confidence_app amount issue_date vendor
  pure { file := fname, vendor := vendor, date := issue_date, amount := amount,
         confidence := confidence,
         needs_review := needsReviewApp confidence,
         raw_excerpt := rawExcerptApp text }

/-- The fields dictionary assembled by `main.py` `process_pdf`. -/
structure FieldsMain where
  vendor : Option Str
  invoice_no : Option Str
  issue_date : Option Str
  currency : Str
  subtotal : Option ℚ
  tax : Option ℚ
  total : Option ℚ
  notes : Str
  raw_text : Str
  confidence : ℚ
  needs_review : Bool
deriving DecidableEq, Repr

/-- The per-file result of `main.py` `process_pdf`: `ok = True` with the
fields, or `ok = False` with a notes-only fields dictionary. -/
inductive MainResult where
  | ok : Str → FieldsMain → MainResult
  | failed : Str → Str → MainResult
deriving DecidableEq, Repr

/-- `InvoiceProcessor.process_pdf` of `main.py`, with the extractors
passed in as possibly-raising functions; the single `except` clause turns
any raised error into an `ok = False` record whose fields hold only a
`notes` message. -/
def processPdfMain (fname : Str)
    (exText : List Nat → Except PyExc Str)
    (exVendor : Str → Except PyExc (Option Str))
    (exInvNo : Str → Except PyExc (Option Str))
    (exDate : Str → Except PyExc (Option Str))
    (exCurr : Str → Except PyExc Str)
    (exAmounts : Str → Except PyExc (Option ℚ × Option ℚ × Option ℚ))
    (pdf : List Nat) : MainResult :=
  let body : Except PyExc FieldsMain := do
    let text ← exText pdf
    let vendor ← exVendor text
    let invoice_no ← exInvNo text
    let issue_date ← exDate text
    let currency ← exCurr text
    let amounts ← exAmounts text
    let confidence := calculate_confidence_main vendor issue_date amounts.2.2
      amounts.1 amounts.2.1 invoice_no
    pure { vendor := vendor, invoice_no := invoice_no, issue_date := issue_date,
           currency := currency, subtotal := amounts.1, tax := amounts.2.1,
           total := amounts.2.2, notes := [], raw_text := rawTextMain text,
           confidence := confidence, needs_review := needsReviewMain confidence }
  match body with
  | .ok fs => .ok fname fs
  | .error (.exc m) => .failed fname (("Processing failed: ").toList ++ m)

/-!
The session export of `app.py`: the row dictionary built in
`upload_files`, the fixed column order `COLS`, and `export_csv` with the
`csv.writer` excel dialect (minimal quoting, doubled quote character,
CRLF row terminator).  A conforming reader for that dialect is embedded
to state the round-trip property.
-/

/-- A row of the session buffer, as built in `upload_files`. -/
structure JpRow where
  file : Str
  date : Option Str
  amount : Option ℤ
  vendor : Option Str
  confidence : ℚ
  needs_review : Str
  raw_excerpt : Str
deriving DecidableEq, Repr

/-- Decimal string of an integer, Python `str(int)`. -/
def intStr (n : ℤ) : Str := (toString n).toList

/-- Python `str(float)` for the two-decimal values produced by
`round(x, 2)`: shortest decimal form, keeping one fractional digit for
integral values. -/
def floatCell (q : ℚ) : Str :=
  let n : ℤ := Int.fdiv (q.num * 100) (q.den : ℤ)
  let ip : ℤ := n / 100
  let fp : ℕ := (n % 100).toNat
  if fp = 0 then intStr ip ++ ('.' :: ['0'])
  else if fp % 10 = 0 then intStr ip ++ ('.' :: intStr (fp / 10))
  else if fp < 10 then intStr ip ++ ('.' :: '0' :: intStr fp)
  else intStr ip ++ ('.' :: intStr fp)

/-- The cell a value serialises to in `csv.writer`: `None` becomes the
empty field, other values their `str` form. -/
def optStrCell (v : Option Str) : Str := v.getD []

/-- The cell of an optional integer. -/
def optIntCell (v : Option ℤ) : Str := (v.map intStr).getD []

/-- The fixed column order `COLS` of `app.py`. -/
def csvCols : List Str :=
  [("file").toList, ("date").toList, ("amount").toList, ("vendor").toList,
   ("confidence").toList, ("needs_review").toList, ("raw_excerpt").toList]

/-- The cells of one buffer row in the `COLS` order
(`[row.get(col, "") for col in COLS]`, serialised by `csv.writer`). -/
def rowCells (r : JpRow) : List Str :=
  [r.file, optStrCell r.date, optIntCell r.amount, optStrCell r.vendor,
   floatCell r.confidence, r.needs_review, r.raw_excerpt]

/-- Whether the excel dialect quotes a field under minimal quoting: it
contains the delimiter, the quote character, or a line-terminator
character. -/
def needsQuote (f : Str) : Bool :=
  f.any (fun c => c = ',' || c = '"' || c = '\x0d' || c = '\n')

/-- Double every quote character (excel dialect escaping). -/
def escQ : Str → Str
  | [] => []
  | c :: r => if c = '"' then '"' :: '"' :: escQ r else c :: escQ r

/-- Serialise one field with minimal quoting. -/
def renderField (f : Str) : Str :=
  if needsQuote f then '"' :: (escQ f ++ ['"']) else f

/-- Join rendered fields with the comma delimiter. -/
def joinComma : List Str → Str
  | [] => []
  | [f] => f
  | f :: g :: r => f ++ ',' :: joinComma (g :: r)

/-- Serialise one record with the CRLF terminator of the excel dialect. -/
def renderRow (cs : List Str) : Str :=
  joinComma (cs.map renderField) ++ ('\x0d' :: ['\n'])

/-- Serialise a sequence of records. -/
def renderCsv (rows : List (List Str)) : Str := (rows.map renderRow).flatten

/-- The `export_csv` route body of `app.py`: header row `COLS`, then one
row per buffered record in insertion order. -/
def export_csv (rows : List JpRow) : Str :=
  renderCsv (csvCols :: rows.map rowCells)

/-- Reader for a quoted field, after the opening quote: a doubled quote
is a literal quote, a single quote closes the field. -/
def parseQuoted : Str → Option (Str × Str)
  | [] => none
  | '"' :: '"' :: r => (parseQuoted r).map (fun p => ('"' :: p.1, p.2))
  | '"' :: r => some ([], r)
  | c :: r => (parseQuoted r).map (fun p => (c :: p.1, p.2))

/-- Reader for one field: quoted if it starts with the quote character,
otherwise everything up to the delimiter or the record terminator. -/
def parseField (l : Str) : Str × Str :=
  match l with
  | [] => ([], [])
  | c :: r =>
    if c = '"' then
      match parseQuoted r with
      | some p => p
      | none => (r, [])
    else ((c :: r).takeWhile (fun x => !(x = ',' || x = '\x0d')),
          (c :: r).dropWhile (fun x => !(x = ',' || x = '\x0d')))

/-- Reader for one record (fuel-bounded on the number of fields). -/
def parseRecordF : Nat → Str → Option (List Str × Str)
  | 0, _ => none
  | fuel + 1, l =>
    let p := parseField l
    match p.2 with
    | ',' :: r => (parseRecordF fuel r).map (fun q => (p.1 :: q.1, q.2))
    | '\x0d' :: '\n' :: r => some ([p.1], r)
    | _ => none

/-- Reader for a whole document (fuel-bounded on the number of records). -/
def parseCsvF : Nat → Str → Option (List (List Str))
  | _, [] => some []
  | 0, _ => none
  | fuel + 1, l =>
    match parseRecordF (l.length + 1) l with
    | some (r, rest) => (parseCsvF fuel rest).map (fun rs => r :: rs)
    | none => none

/-- Reader for a whole CSV document in the excel dialect. -/
def parseCsv (l : Str) : Option (List (List Str)) := parseCsvF (l.length + 1) l

/-!
Definitions written from the specification's words, for comparison with
the ones translated from the source.
-/

/-- Canonical zero-padded date shape, the spec's `^\d{4}-\d{2}-\d{2}$`. -/
def isCanonicalDate (s : Str) : Bool :=
  match s with
  | [a, b, c, d, e, f, g, h, i, j] =>
    pyDigit a && pyDigit b && pyDigit c && pyDigit d && e = '-' &&
    pyDigit f && pyDigit g && h = '-' && pyDigit i && pyDigit j
  | _ => false

/-- Dash-separated date shape without the zero-padding requirement,
`^\d{4}-\d{1,2}-\d{1,2}$`. -/
def isLooseDate (s : Str) : Bool :=
  match pySplit '-' s with
  | [y, m, d] =>
    y.length = 4 && y.all pyDigit &&
    1 ≤ m.length && m.length ≤ 2 && m.all pyDigit &&
    1 ≤ d.length && d.length ≤ 2 && d.all pyDigit
  | _ => false

/-- Modelled from the spec: the weighted scoring policy as §4.3 words it,
count of non-null among `vendor`, `issue_date`, `total`, plus `0.5` for
each of `subtotal` and `tax` if present, plus `0.5` if `invoice_no` is
present, divided by `4.5`, rounded to two decimals. -/
def specWeightedConfidence (vendor issue_date : Option Str)
    (total subtotal tax : Option ℚ) (invoice_no : Option Str) : ℚ :=
  let count : ℤ := (([vendor.isSome, issue_date.isSome, total.isSome].count true : ℕ) : ℤ)
  let bonusHalves : ℤ := (if subtotal.isSome then 1 else 0) + (if tax.isSome then 1 else 0) +
    (if invoice_no.isSome then 1 else 0)
  round2 (Rat.divInt (2 * count + bonusHalves) 9)

/-- A currency token starting at the head of the list: the JPY signs or
code, the dollar sign or USD code, the euro sign or EUR code. -/
def currencyTokAt (l : Str) : Option Str :=
  match l with
  | [] => none
  | c :: _ =>
    if c = '￥' || c = '¥' || c = '円' || (litM (("JPY").toList) l).isSome then
      some (("JPY").toList)
    else if c = '$' || (litM (("USD").toList) l).isSome then some (("USD").toList)
    else if c = '€' || (litM (("EUR").toList) l).isSome then some (("EUR").toList)
    else none

/-- Modelled from the claim's words: the first recognised currency in the
text, scanning positions left to right, with the fixed fallback when none
is found. -/
def specFirstCurrency (t : Str) : Str :=
  (searchAt currencyTokAt t).getD (("JPY").toList)

/-!
Helper lemmas, then one theorem per claim (with witnesses and
counterexamples where required).
-/

theorem jpFlag_iff (a : Option ℤ) (d v : Option Str) :
    ((if jpScore a d v < Rat.divInt 4 5 then ("TRUE").toList else ("FALSE").toList) = ("TRUE").toList ↔
      round2 (jpScore a d v) < Rat.divInt 4 5) := by
  cases a <;> cases d <;> cases v <;>
    simp only [jpScore, Option.isSome_some, Option.isSome_none] <;> decide

theorem jpConfidence_cases (a : Option ℤ) (d v : Option Str) :
    round2 (jpScore a d v) = 0 ∨ round2 (jpScore a d v) = Rat.divInt 33 100 ∨
    round2 (jpScore a d v) = Rat.divInt 67 100 ∨ round2 (jpScore a d v) = 1 := by
  cases a <;> cases d <;> cases v <;>
    simp only [jpScore, Option.isSome_some, Option.isSome_none] <;> decide

theorem jpFlag_cases (a : Option ℤ) (d v : Option Str) :
    (if jpScore a d v < Rat.divInt 4 5 then ("TRUE").toList else ("FALSE").toList) = ("TRUE").toList ∨
    (if jpScore a d v < Rat.divInt 4 5 then ("TRUE").toList else ("FALSE").toList) = ("FALSE").toList := by
  cases a <;> cases d <;> cases v <;>
    simp only [jpScore, Option.isSome_some, Option.isSome_none] <;> decide

/-- C2.  In all three variants the review flag is exactly the strict
comparison of the recorded (rounded) confidence against that variant's
threshold: `0.8` for the Japanese rule pack of `app.py` (whose source
compares the unrounded score, which agrees with comparing the rounded
confidence on all reachable values), `0.67` for `process_pdf` of
`app.py` and of `main.py`; at the boundary the flag is false. -/
theorem c2_needs_review_strict_threshold :
    (∀ t : Str, (extract_fields_jp t).needs_review = ("TRUE").toList ↔
        (extract_fields_jp t).confidence < Rat.divInt 4 5) ∧
    (∀ (amount : Option ℚ) (issue_date vendor : Option Str),
        needsReviewApp (calculate_confidence_app amount issue_date vendor) = ("TRUE").toList ↔
          calculate_confidence_app amount issue_date vendor < Rat.divInt 67 100) ∧
    (∀ (vendor issue_date : Option Str) (total subtotal tax : Option ℚ)
        (invoice_no : Option Str),
        needsReviewMain
            (calculate_confidence_main vendor issue_date total subtotal tax invoice_no) = true ↔
          calculate_confidence_main vendor issue_date total subtotal tax invoice_no < Rat.divInt 67 100) := by
  refine ⟨?_, ?_, ?_⟩
  · intro t
    simp only [extract_fields_jp]
    exact jpFlag_iff _ _ _
  · intro amount issue_date vendor
    by_cases h : calculate_confidence_app amount issue_date vendor < Rat.divInt 67 100
    · simp [needsReviewApp, h]
    · simp only [needsReviewApp, if_neg h]
      constructor
      · intro hEq
        exact absurd hEq (by decide)
      · intro hlt
        exact absurd hlt h
  · intro vendor issue_date total subtotal tax invoice_no
    simp [needsReviewMain]

/-- C10.  The confidence of `extract_fields_jp` is always one of the four
values `round(k/3, 2)` for `k ∈ {0, 1, 2, 3}`, and its review flag is
always one of the two strings `"TRUE"` and `"FALSE"`. -/
theorem c10_jp_confidence_and_flag_range :
    ∀ t : Str,
      ((extract_fields_jp t).confidence = 0 ∨ (extract_fields_jp t).confidence = Rat.divInt 33 100 ∨
       (extract_fields_jp t).confidence = Rat.divInt 67 100 ∨ (extract_fields_jp t).confidence = 1) ∧
      ((extract_fields_jp t).needs_review = ("TRUE").toList ∨
       (extract_fields_jp t).needs_review = ("FALSE").toList) := by
  intro t
  simp only [extract_fields_jp]
  exact ⟨jpConfidence_cases _ _ _, jpFlag_cases _ _ _⟩

/-- C4.  The weighted scorer of `main.py` computes exactly the spec's
formula (non-null count over the three key fields plus half-point
bonuses, divided by `4.5`, rounded to two decimals), and its value always
lies in `[0, 1]`. -/
theorem c4_weighted_confidence_formula_and_range :
    ∀ (vendor issue_date : Option Str) (total subtotal tax : Option ℚ)
      (invoice_no : Option Str),
      calculate_confidence_main vendor issue_date total subtotal tax invoice_no =
          specWeightedConfidence vendor issue_date total subtotal tax invoice_no ∧
      0 ≤ calculate_confidence_main vendor issue_date total subtotal tax invoice_no ∧
      calculate_confidence_main vendor issue_date total subtotal tax invoice_no ≤ 1 := by
  intro vendor issue_date total subtotal tax invoice_no
  cases vendor <;> cases issue_date <;> cases total <;> cases subtotal <;>
    cases tax <;> cases invoice_no <;>
    simp only [calculate_confidence_main, specWeightedConfidence,
      Option.isSome_some, Option.isSome_none] <;> decide

/-- C8.  Both scoring policies are monotone in field presence: turning
any single constituent field from null to non-null, holding the others
fixed, never decreases the confidence. -/
theorem c8_confidence_monotone_in_presence :
    (∀ (x : ℚ) (d v : Option Str),
        calculate_confidence_app none d v ≤ calculate_confidence_app (some x) d v) ∧
    (∀ (a : Option ℚ) (s : Str) (v : Option Str),
        calculate_confidence_app a none v ≤ calculate_confidence_app a (some s) v) ∧
    (∀ (a : Option ℚ) (d : Option Str) (s : Str),
        calculate_confidence_app a d none ≤ calculate_confidence_app a d (some s)) ∧
    (∀ (s : Str) (d : Option Str) (tt st tx : Option ℚ) (inv : Option Str),
        calculate_confidence_main none d tt st tx inv ≤
          calculate_confidence_main (some s) d tt st tx inv) ∧
    (∀ (v : Option Str) (s : Str) (tt st tx : Option ℚ) (inv : Option Str),
        calculate_confidence_main v none tt st tx inv ≤
          calculate_confidence_main v (some s) tt st tx inv) ∧
    (∀ (v d : Option Str) (x : ℚ) (st tx : Option ℚ) (inv : Option Str),
        calculate_confidence_main v d none st tx inv ≤
          calculate_confidence_main v d (some x) st tx inv) ∧
    (∀ (v d : Option Str) (tt : Option ℚ) (x : ℚ) (tx : Option ℚ) (inv : Option Str),
        calculate_confidence_main v d tt none tx inv ≤
          calculate_confidence_main v d tt (some x) tx inv) ∧
    (∀ (v d : Option Str) (tt st : Option ℚ) (x : ℚ) (inv : Option Str),
        calculate_confidence_main v d tt st none inv ≤
          calculate_confidence_main v d tt st (some x) inv) ∧
    (∀ (v d : Option Str) (tt st tx : Option ℚ) (s : Str),
        calculate_confidence_main v d tt st tx none ≤
          calculate_confidence_main v d tt st tx (some s)) := by
  refine ⟨?_, ?_, ?_, ?_, ?_, ?_, ?_, ?_, ?_⟩
  · intro x d v; cases d <;> cases v <;>
      simp only [calculate_confidence_app, Option.isSome_some, Option.isSome_none] <;> decide
  · intro a s v; cases a <;> cases v <;>
      simp only [calculate_confidence_app, Option.isSome_some, Option.isSome_none] <;> decide
  · intro a d s; cases a <;> cases d <;>
      simp only [calculate_confidence_app, Option.isSome_some, Option.isSome_none] <;> decide
  · intro s d tt st tx inv
    cases d <;> cases tt <;> cases st <;> cases tx <;> cases inv <;>
      simp only [calculate_confidence_main, Option.isSome_some, Option.isSome_none] <;> decide
  · intro v s tt st tx inv
    cases v <;> cases tt <;> cases st <;> cases tx <;> cases inv <;>
      simp only [calculate_confidence_main, Option.isSome_some, Option.isSome_none] <;> decide
  · intro v d x st tx inv
    cases v <;> cases d <;> cases st <;> cases tx <;> cases inv <;>
      simp only [calculate_confidence_main, Option.isSome_some, Option.isSome_none] <;> decide
  · intro v d tt x tx inv
    cases v <;> cases d <;> cases tt <;> cases tx <;> cases inv <;>
      simp only [calculate_confidence_main, Option.isSome_some, Option.isSome_none] <;> decide
  · intro v d tt st x inv
    cases v <;> cases d <;> cases tt <;> cases st <;> cases inv <;>
      simp only [calculate_confidence_main, Option.isSome_some, Option.isSome_none] <;> decide
  · intro v d tt st tx s
    cases v <;> cases d <;> cases tt <;> cases st <;> cases tx <;>
      simp only [calculate_confidence_main, Option.isSome_some, Option.isSome_none] <;> decide

/-- C7 counterexample.  In a text whose first currency token is the
dollar sign, `detect_currency` still returns `"JPY"` (it checks the JPY
class first regardless of position), while a positional first-token scan
yields `"USD"`; so the detector does not return the first recognised
currency in the text. -/
theorem c7_counterexample :
    detect_currency (("$1 円").toList) = ("JPY").toList ∧
    specFirstCurrency (("$1 円").toList) = ("USD").toList ∧
    ("JPY").toList ≠ ("USD").toList := by
  refine ⟨by decide, by decide, by decide⟩

/-- C7 amended.  The currency detector is total and never null: it always
returns one of `"JPY"`, `"USD"`, `"EUR"`; it falls back to `"JPY"` when
no currency token occurs; and it selects by the fixed priority order
JPY, then USD, then EUR — not by position in the text. -/
theorem c7_currency_detector_amended :
    ∀ t : Str,
      (detect_currency t = ("JPY").toList ∨ detect_currency t = ("USD").toList ∨
        detect_currency t = ("EUR").toList) ∧
      (hasJpyTok t = false → hasUsdTok t = false → hasEurTok t = false →
        detect_currency t = ("JPY").toList) ∧
      (hasJpyTok t = true → detect_currency t = ("JPY").toList) ∧
      (hasJpyTok t = false → hasUsdTok t = true → detect_currency t = ("USD").toList) ∧
      (hasJpyTok t = false → hasUsdTok t = false → hasEurTok t = true →
        detect_currency t = ("EUR").toList) := by
  intro t
  unfold detect_currency
  rcases h1 : hasJpyTok t <;> rcases h2 : hasUsdTok t <;> rcases h3 : hasEurTok t <;>
    simp [h1, h2, h3]

/-- C7 witness: the amended theorem evaluated at a concrete tokenless
text. -/
theorem c7_currency_witness :
    detect_currency (("hello").toList) = ("JPY").toList :=
  (c7_currency_detector_amended (("hello").toList)).2.1 (by decide) (by decide) (by decide)

theorem dropWhile_length_le (p : Char → Bool) (l : Str) :
    (l.dropWhile p).length ≤ l.length := by
  induction l with
  | nil => simp
  | cons c r ih =>
    rw [List.dropWhile_cons]
    split
    · exact Nat.le_succ_of_le ih
    · exact Nat.le_refl _

theorem pyStrip_length_le (l : Str) : (pyStrip l).length ≤ l.length := by
  unfold pyStrip
  have h1 : (l.dropWhile pySpace).length ≤ l.length := dropWhile_length_le pySpace l
  have h2 : ((l.dropWhile pySpace).reverse.dropWhile pySpace).length ≤
      (l.dropWhile pySpace).reverse.length :=
    dropWhile_length_le pySpace (l.dropWhile pySpace).reverse
  simp only [List.length_reverse] at *
  omega

set_option maxRecDepth 4096 in
/-- C5 counterexample.  On a 201-character text the `app.py` excerpt is
the 200-character prefix plus the three-character ellipsis marker: 203
characters, exceeding the 200-character bound. -/
theorem c5_counterexample :
    (rawExcerptApp (List.replicate 201 'a')).length = 203 ∧
    ¬ (rawExcerptApp (List.replicate 201 'a')).length ≤ 200 := by
  refine ⟨by decide, by decide⟩

/-- C5 amended.  The excerpt is the (`app.py`: whitespace-stripped)
bounded prefix when the text fits the bound, and that prefix plus the
ellipsis marker exactly when the text is longer; its length is bounded by
the configured bound plus the three marker characters (203 and 503), not
by the bound itself. -/
theorem c5_raw_excerpt_amended :
    ∀ t : Str,
      (t.length ≤ 200 → rawExcerptApp t = pyStrip t) ∧
      (200 < t.length → rawExcerptApp t = pyStrip (t.take 200) ++ ("...").toList) ∧
      (rawExcerptApp t).length ≤ 203 ∧
      (t.length ≤ 500 → rawTextMain t = t) ∧
      (500 < t.length → rawTextMain t = t.take 500 ++ ("...").toList) ∧
      (rawTextMain t).length ≤ 503 := by
  intro t
  refine ⟨?_, ?_, ?_, ?_, ?_, ?_⟩
  · intro h
    unfold rawExcerptApp
    rw [if_neg (by omega), List.take_of_length_le h]
  · intro h
    unfold rawExcerptApp
    rw [if_pos h]
  · simp only [rawExcerptApp]
    have hs := pyStrip_length_le (t.take 200)
    have ht : (t.take 200).length ≤ 200 := by
      simp [List.length_take]
    split
    · simp only [List.length_append]
      have h3 : (("...").toList : Str).length = 3 := by decide
      omega
    · omega
  · intro h
    unfold rawTextMain
    rw [if_neg (by omega)]
  · intro h
    unfold rawTextMain
    rw [if_pos h]
  · unfold rawTextMain
    split
    · simp only [List.length_append, List.length_take]
      have : (("...").toList : Str).length = 3 := by decide
      omega
    · rename_i h
      omega

/-- C5 witness: the amended theorem evaluated at a short concrete text. -/
theorem c5_raw_excerpt_witness :
    rawExcerptApp (("hi").toList) = pyStrip (("hi").toList) ∧
    rawTextMain (("hi").toList) = ("hi").toList :=
  ⟨(c5_raw_excerpt_amended (("hi").toList)).1 (by decide),
   (c5_raw_excerpt_amended (("hi").toList)).2.2.2.1 (by decide)⟩

theorem exceptBind_ok {α β : Type} (a : α) (f : α → Except PyExc β) :
    (Except.ok a >>= f) = f a := rfl

theorem exceptBind_error {α β : Type} (e : PyExc) (f : α → Except PyExc β) :
    ((Except.error e : Except PyExc α) >>= f) = Except.error e := rfl

/-- C6 counterexample.  With a text extractor that succeeds and an amount
extractor that raises, `app.py`'s `process_pdf` re-raises: no record is
produced at all, instead of a record with only the amount degraded to
null. -/
theorem c6_counterexample :
    processPdfApp (("a.pdf").toList) (fun _ => Except.ok (("text").toList))
        (fun _ => Except.error (PyExc.exc (("boom").toList)))
        (fun _ => Except.ok none) (fun _ => Except.ok none) [] =
      Except.error (PyExc.exc (("boom").toList)) ∧
    ∀ r : RecordApp,
      processPdfApp (("a.pdf").toList) (fun _ => Except.ok (("text").toList))
          (fun _ => Except.error (PyExc.exc (("boom").toList)))
          (fun _ => Except.ok none) (fun _ => Except.ok none) [] ≠ Except.ok r := by
  refine ⟨rfl, ?_⟩
  intro r h
  exact Except.noConfusion h

/-- C6 amended.  Neither assembler isolates a failing field extractor:
in `app.py` any extractor exception propagates out of `process_pdf`
(the whole file fails), and in `main.py` it produces an `ok = False`
result whose fields hold only the failure note — in both cases the
remaining fields are discarded rather than kept with the failing field
null. -/
theorem c6_no_field_isolation :
    (∀ (fname : Str) (exText : List Nat → Except PyExc Str)
        (exAmount : Str → Except PyExc (Option ℚ))
        (exDate exVendor : Str → Except PyExc (Option Str))
        (pdf : List Nat) (t : Str) (e : PyExc),
        exText pdf = Except.ok t → exAmount t = Except.error e →
        processPdfApp fname exText exAmount exDate exVendor pdf = Except.error e) ∧
    (∀ (fname : Str) (exText : List Nat → Except PyExc Str)
        (exVendor exInvNo exDate : Str → Except PyExc (Option Str))
        (exCurr : Str → Except PyExc Str)
        (exAmounts : Str → Except PyExc (Option ℚ × Option ℚ × Option ℚ))
        (pdf : List Nat) (t : Str) (m : Str),
        exText pdf = Except.ok t → exVendor t = Except.error (PyExc.exc m) →
        processPdfMain fname exText exVendor exInvNo exDate exCurr exAmounts pdf =
          MainResult.failed fname (("Processing failed: ").toList ++ m)) := by
  constructor
  · intro fname exText exAmount exDate exVendor pdf t e h1 h2
    simp [processPdfApp, h1, h2, exceptBind_ok, exceptBind_error]
  · intro fname exText exVendor exInvNo exDate exCurr exAmounts pdf t m h1 h2
    simp [processPdfMain, h1, h2, exceptBind_ok, exceptBind_error]

/-- C6 witness: the amended theorem evaluated at concrete extractor
stubs. -/
theorem c6_no_field_isolation_witness :
    processPdfApp (("w.pdf").toList) (fun _ => Except.ok [])
        (fun _ => Except.error (PyExc.exc (("bad").toList)))
        (fun _ => Except.ok none) (fun _ => Except.ok none) [] =
      Except.error (PyExc.exc (("bad").toList)) ∧
    processPdfMain (("w.pdf").toList) (fun _ => Except.ok [])
        (fun _ => Except.error (PyExc.exc (("bad").toList)))
        (fun _ => Except.ok none) (fun _ => Except.ok none)
        (fun _ => Except.ok []) (fun _ => Except.ok (none, none, none)) [] =
      MainResult.failed (("w.pdf").toList) (("Processing failed: bad").toList) := by
  constructor
  · exact c6_no_field_isolation.1 _ _ _ _ _ [] [] _ rfl rfl
  · have h := c6_no_field_isolation.2 (("w.pdf").toList) (fun _ => Except.ok [])
      (fun _ => Except.error (PyExc.exc (("bad").toList)))
      (fun _ => Except.ok none) (fun _ => Except.ok none)
      (fun _ => Except.ok []) (fun _ => Except.ok (none, none, none)) [] []
      (("bad").toList) rfl rfl
    exact h.trans (by decide)

theorem orElse_eq_some' {α : Type} {o : Option α} {f : Unit → Option α} {v : α}
    (h : o.orElse f = some v) : o = some v ∨ (o = none ∧ f () = some v) := by
  cases o
  · right
    exact ⟨rfl, h⟩
  · left
    exact h

theorem searchAt_eq_some {α : Type} {f : Str → Option α} {t : Str} {v : α}
    (h : searchAt f t = some v) : ∃ l, f l = some v := by
  induction t with
  | nil => exact ⟨[], h⟩
  | cons c r ih =>
    rw [searchAt] at h
    rcases orElse_eq_some' h with h1 | ⟨_, h2⟩
    · exact ⟨c :: r, h1⟩
    · exact ih h2

theorem matchD12_eq_some {β : Type} {k : Str → Str → Option β} {l : Str} {v : β}
    (h : matchD12 k l = some v) :
    ∃ m r, 1 ≤ m.length ∧ m.length ≤ 2 ∧ m.all pyDigit = true ∧ k m r = some v := by
  match l with
  | [] => simp [matchD12] at h
  | [a] =>
    simp only [matchD12] at h
    split at h
    · rename_i ha
      exact ⟨[a], [], by simp, by simp, by simp [ha], h⟩
    · exact absurd h (by simp)
  | a :: b :: r =>
    simp only [matchD12] at h
    split at h
    · rename_i ha
      split at h
      · rename_i hb
        rcases orElse_eq_some' h with h1 | ⟨_, h2⟩
        · exact ⟨[a, b], r, by simp, by simp, by simp [ha, hb], h1⟩
        · exact ⟨[a], b :: r, by simp, by simp, by simp [ha], h2⟩
      · exact ⟨[a], b :: r, by simp, by simp, by simp [ha], h⟩
    · exact absurd h (by simp)

theorem dig4_eq_some {l : Str} {y r : Str} (h : dig4 l = some (y, r)) :
    y.length = 4 ∧ y.all pyDigit = true := by
  rcases l with _ | ⟨a, _ | ⟨b, _ | ⟨c, _ | ⟨d, r'⟩⟩⟩⟩
  · exact absurd h (by simp [dig4])
  · exact absurd h (by simp [dig4])
  · exact absurd h (by simp [dig4])
  · exact absurd h (by simp [dig4])
  · simp only [dig4] at h
    split at h
    · rename_i hc4
      rw [Option.some.injEq, Prod.mk.injEq] at h
      obtain ⟨hy, _⟩ := h
      subst hy
      simp only [Bool.and_eq_true] at hc4
      obtain ⟨⟨⟨h1, h2⟩, h3⟩, h4⟩ := hc4
      simp [h1, h2, h3, h4]
    · exact absurd h (by simp)

theorem dateYMD_eq_some {sep : Char → Bool} {l g : Str} (h : dateYMD sep l = some g) :
    ∃ y s1 m s2 d, g = y ++ s1 :: (m ++ s2 :: d) ∧
      y.length = 4 ∧ y.all pyDigit = true ∧ sep s1 = true ∧
      1 ≤ m.length ∧ m.length ≤ 2 ∧ m.all pyDigit = true ∧ sep s2 = true ∧
      1 ≤ d.length ∧ d.length ≤ 2 ∧ d.all pyDigit = true := by
  unfold dateYMD at h
  rcases hd4 : dig4 l with _ | ⟨y, r1⟩ <;> rw [hd4] at h
  · exact absurd h (by simp)
  obtain ⟨hy4, hyd⟩ := dig4_eq_some hd4
  rcases r1 with _ | ⟨s1, r2⟩
  · exact absurd h (by simp)
  simp only at h
  split at h
  · rename_i hs1
    obtain ⟨m, r3, hm1, hm2, hmd, hk⟩ := matchD12_eq_some h
    rcases r3 with _ | ⟨s2, r4⟩
    · exact absurd hk (by simp)
    simp only at hk
    split at hk
    · rename_i hs2
      obtain ⟨d, r5, hd1, hd2, hdd, hk2⟩ := matchD12_eq_some hk
      obtain hg := Option.some.inj hk2
      exact ⟨y, s1, m, s2, d, hg.symm, hy4, hyd, hs1, hm1, hm2, hmd, hs2, hd1, hd2, hdd⟩
    · exact absurd hk (by simp)
  · exact absurd h (by simp)

theorem dateP3At_eq_some {l g : Str} (h : dateP3At l = some g) :
    ∃ y m d, g = y ++ '年' :: (m ++ '月' :: (d ++ ['日'])) ∧
      y.length = 4 ∧ y.all pyDigit = true ∧
      1 ≤ m.length ∧ m.length ≤ 2 ∧ m.all pyDigit = true ∧
      1 ≤ d.length ∧ d.length ≤ 2 ∧ d.all pyDigit = true := by
  unfold dateP3At at h
  rcases hd4 : dig4 l with _ | ⟨y, r1⟩ <;> rw [hd4] at h
  · exact absurd h (by simp)
  obtain ⟨hy4, hyd⟩ := dig4_eq_some hd4
  rcases r1 with _ | ⟨s1, r2⟩
  · exact absurd h (by simp)
  simp only at h
  split at h
  · rename_i hs1
    obtain ⟨m, r3, hm1, hm2, hmd, hk⟩ := matchD12_eq_some h
    rcases r3 with _ | ⟨s2, r4⟩
    · exact absurd hk (by simp)
    simp only at hk
    split at hk
    · rename_i hs2
      obtain ⟨d, r5, hd1, hd2, hdd, hk2⟩ := matchD12_eq_some hk
      rcases r5 with _ | ⟨c5, r6⟩
      · exact absurd hk2 (by simp)
      simp only at hk2
      split at hk2
      · rename_i hc5
        obtain hg := Option.some.inj hk2
        subst hs1; subst hs2
        exact ⟨y, m, d, hg.symm, hy4, hyd, hm1, hm2, hmd, hd1, hd2, hdd⟩
      · exact absurd hk2 (by simp)
    · exact absurd hk (by simp)
  · exact absurd h (by simp)

theorem jpDateGroupAt_eq_some {l g : Str} (h : jpDateGroupAt l = some g) :
    ∃ y s1 w1 m s2 w2 d tl, g = y ++ s1 :: (w1 ++ m ++ s2 :: (w2 ++ d ++ tl)) ∧
      y.length = 4 ∧ y.all pyDigit = true ∧
      (s1 = '.' ∨ s1 = '/' ∨ s1 = '年') ∧ w1.all pySpace = true ∧
      1 ≤ m.length ∧ m.length ≤ 2 ∧ m.all pyDigit = true ∧
      (s2 = '.' ∨ s2 = '/' ∨ s2 = '月') ∧ w2.all pySpace = true ∧
      1 ≤ d.length ∧ d.length ≤ 2 ∧ d.all pyDigit = true ∧
      (tl = [] ∨ tl = ['日']) := by
  unfold jpDateGroupAt at h
  rcases hd4 : dig4 l with _ | ⟨y, r1⟩ <;> rw [hd4] at h
  · exact absurd h (by simp)
  obtain ⟨hy4, hyd⟩ := dig4_eq_some hd4
  rcases r1 with _ | ⟨s1, r2⟩
  · exact absurd h (by simp)
  simp only at h
  split at h
  · rename_i hs1
    obtain ⟨m, r4, hm1, hm2, hmd, hk⟩ := matchD12_eq_some h
    rcases r4 with _ | ⟨s2, r5⟩
    · exact absurd hk (by simp)
    simp only at hk
    split at hk
    · rename_i hs2
      obtain ⟨d, r7, hd1, hd2, hdd, hk2⟩ := matchD12_eq_some hk
      obtain hg := Option.some.inj hk2
      refine ⟨y, s1, r2.takeWhile pySpace, m, s2, r5.takeWhile pySpace, d, jpDayTail r7,
        hg.symm, hy4, hyd, ?_, ?_, hm1, hm2, hmd, ?_, ?_, hd1, hd2, hdd, ?_⟩
      · simp only [Bool.or_eq_true, decide_eq_true_eq] at hs1
        tauto
      · simp only [List.all_eq_true]
        intro c hc
        exact List.mem_takeWhile_imp hc
      · simp only [Bool.or_eq_true, decide_eq_true_eq] at hs2
        tauto
      · simp only [List.all_eq_true]
        intro c hc
        exact List.mem_takeWhile_imp hc
      · unfold jpDayTail
        rcases r7 with _ | ⟨c7, r8⟩
        · exact Or.inl rfl
        · simp only
          split
          · exact Or.inr rfl
          · exact Or.inl rfl
    · exact absurd hk (by simp)
  · exact absurd h (by simp)

theorem pyDigit_ne {c x : Char} (h : pyDigit c = true) (hx : pyDigit x = false) : c ≠ x := by
  intro he
  rw [he, hx] at h
  exact Bool.noConfusion h

theorem pySpace_cases {c : Char} (h : pySpace c = true) :
    c = ' ' ∨ c = '\t' ∨ c = '\n' ∨ c = '\x0d' ∨ c = '\x0b' ∨ c = '\x0c' := by
  simp only [pySpace, Bool.or_eq_true, decide_eq_true_eq] at h
  tauto

theorem pyDigit_not_space {c : Char} (h : pyDigit c = true) : pySpace c = false := by
  cases hs : pySpace c
  · rfl
  · exfalso
    rcases pySpace_cases hs with rfl | rfl | rfl | rfl | rfl | rfl <;>
      exact absurd h (by decide)

theorem normalizeDateStr_app (a b : Str) :
    normalizeDateStr (a ++ b) = normalizeDateStr a ++ normalizeDateStr b := by
  simp [normalizeDateStr, List.map_append, List.filter_append]

theorem normalizeDateStr_digit_char {c : Char} (h : pyDigit c = true) :
    normalizeDateStr [c] = [c] := by
  have h1 : c ≠ '年' := pyDigit_ne h (by decide)
  have h2 : c ≠ '月' := pyDigit_ne h (by decide)
  have h3 : c ≠ '日' := pyDigit_ne h (by decide)
  have h4 : c ≠ '.' := pyDigit_ne h (by decide)
  have h5 : c ≠ '/' := pyDigit_ne h (by decide)
  simp [normalizeDateStr, h1, h2, h3, h4, h5]

theorem normalizeDateStr_digits : ∀ {l : Str}, l.all pyDigit = true → normalizeDateStr l = l := by
  intro l h
  induction l with
  | nil => rfl
  | cons c r ih =>
    simp only [List.all_cons, Bool.and_eq_true] at h
    have : (c :: r : Str) = [c] ++ r := rfl
    rw [this, normalizeDateStr_app, normalizeDateStr_digit_char h.1, ih h.2]

theorem normalizeDateStr_sep {c : Char}
    (h : c = '年' ∨ c = '月' ∨ c = '.' ∨ c = '/' ∨ c = '-') :
    normalizeDateStr [c] = ['-'] := by
  rcases h with rfl | rfl | rfl | rfl | rfl <;> decide

theorem jpDateNormalize_app (a b : Str) :
    jpDateNormalize (a ++ b) = jpDateNormalize a ++ jpDateNormalize b := by
  simp [jpDateNormalize, List.map_append, List.filter_append]

theorem jpDateNormalize_digit_char {c : Char} (h : pyDigit c = true) :
    jpDateNormalize [c] = [c] := by
  have h1 : c ≠ '年' := pyDigit_ne h (by decide)
  have h2 : c ≠ '月' := pyDigit_ne h (by decide)
  have h3 : c ≠ '日' := pyDigit_ne h (by decide)
  have h4 : c ≠ '.' := pyDigit_ne h (by decide)
  have h5 : c ≠ '/' := pyDigit_ne h (by decide)
  have h6 : pySpace c = false := pyDigit_not_space h
  simp [jpDateNormalize, h1, h2, h3, h4, h5, h6]

theorem jpDateNormalize_digits : ∀ {l : Str}, l.all pyDigit = true → jpDateNormalize l = l := by
  intro l h
  induction l with
  | nil => rfl
  | cons c r ih =>
    simp only [List.all_cons, Bool.and_eq_true] at h
    have : (c :: r : Str) = [c] ++ r := rfl
    rw [this, jpDateNormalize_app, jpDateNormalize_digit_char h.1, ih h.2]

theorem jpDateNormalize_sep {c : Char}
    (h : c = '年' ∨ c = '月' ∨ c = '.' ∨ c = '/' ∨ c = '-') :
    jpDateNormalize [c] = ['-'] := by
  rcases h with rfl | rfl | rfl | rfl | rfl <;> decide

theorem jpDateNormalize_ws : ∀ {l : Str}, l.all pySpace = true → jpDateNormalize l = [] := by
  intro l h
  induction l with
  | nil => rfl
  | cons c r ih =>
    simp only [List.all_cons, Bool.and_eq_true] at h
    have hc : jpDateNormalize [c] = [] := by
      rcases pySpace_cases h.1 with rfl | rfl | rfl | rfl | rfl | rfl <;> decide
    have : (c :: r : Str) = [c] ++ r := rfl
    rw [this, jpDateNormalize_app, hc, ih h.2]
    rfl

theorem pySplit_sep_cons (sep : Char) (a r : Str) (h : ∀ c ∈ a, c ≠ sep) :
    pySplit sep (a ++ sep :: r) = a :: pySplit sep r := by
  induction a with
  | nil => simp [pySplit]
  | cons c a ih =>
    have hc : c ≠ sep := h c (by simp)
    have ih' := ih (fun x hx => h x (by simp [hx]))
    simp only [List.cons_append, pySplit, List.append_eq, ih', if_neg hc]

theorem pySplit_no_sep (sep : Char) (d : Str) (h : ∀ c ∈ d, c ≠ sep) :
    pySplit sep d = [d] := by
  induction d with
  | nil => rfl
  | cons c d ih =>
    have hc : c ≠ sep := h c (by simp)
    have ih' := ih (fun x hx => h x (by simp [hx]))
    simp only [pySplit, ih', if_neg hc]

theorem all_digit_ne_dash {l : Str} (h : l.all pyDigit = true) : ∀ c ∈ l, c ≠ '-' := by
  intro c hc
  simp only [List.all_eq_true] at h
  exact pyDigit_ne (h c hc) (by decide)

theorem pySplit_three (y m d : Str) (hy : y.all pyDigit = true) (hm : m.all pyDigit = true)
    (hd : d.all pyDigit = true) :
    pySplit '-' (y ++ '-' :: (m ++ '-' :: d)) = [y, m, d] := by
  rw [pySplit_sep_cons '-' y _ (all_digit_ne_dash hy),
    pySplit_sep_cons '-' m _ (all_digit_ne_dash hm),
    pySplit_no_sep '-' d (all_digit_ne_dash hd)]

theorem zfill_of_le {n : Nat} {s : Str} (h : n ≤ s.length) : zfill n s = s := by
  unfold zfill
  rw [if_pos h]

theorem zfill2_one {c : Char} (h : pyDigit c = true) : zfill 2 [c] = ['0', c] := by
  have h1 : c ≠ '+' := pyDigit_ne h (by decide)
  have h2 : c ≠ '-' := pyDigit_ne h (by decide)
  simp [zfill, h1, h2, List.replicate]

theorem normDate_shaped {y m d : Str} {s1 s2 : Char} {tl : Str}
    (hy : y.all pyDigit = true) (hm : m.all pyDigit = true) (hd : d.all pyDigit = true)
    (hs1 : s1 = '年' ∨ s1 = '月' ∨ s1 = '.' ∨ s1 = '/' ∨ s1 = '-')
    (hs2 : s2 = '年' ∨ s2 = '月' ∨ s2 = '.' ∨ s2 = '/' ∨ s2 = '-')
    (htl : tl = [] ∨ tl = ['日']) :
    normDate (y ++ s1 :: (m ++ s2 :: (d ++ tl))) =
      some (zfill 4 y ++ '-' :: (zfill 2 m ++ '-' :: zfill 2 d)) := by
  have htln : normalizeDateStr tl = [] := by
    rcases htl with rfl | rfl
    · rfl
    · decide
  have hnorm : normalizeDateStr (y ++ s1 :: (m ++ s2 :: (d ++ tl))) =
      y ++ '-' :: (m ++ '-' :: d) := by
    have e : y ++ s1 :: (m ++ s2 :: (d ++ tl)) =
        y ++ ([s1] ++ (m ++ ([s2] ++ (d ++ tl)))) := by simp
    rw [e, normalizeDateStr_app, normalizeDateStr_app, normalizeDateStr_app,
      normalizeDateStr_app, normalizeDateStr_app, normalizeDateStr_digits hy,
      normalizeDateStr_digits hm, normalizeDateStr_digits hd,
      normalizeDateStr_sep hs1, normalizeDateStr_sep hs2, htln]
    simp
  unfold normDate
  rw [hnorm]
  rw [if_pos (by simp : ('-' : Char) ∈ y ++ '-' :: (m ++ '-' :: d))]
  rw [pySplit_three y m d hy hm hd]

theorem jpDateNormalize_shaped {y m d w1 w2 : Str} {s1 s2 : Char} {tl : Str}
    (hy : y.all pyDigit = true) (hm : m.all pyDigit = true) (hd : d.all pyDigit = true)
    (hw1 : w1.all pySpace = true) (hw2 : w2.all pySpace = true)
    (hs1 : s1 = '.' ∨ s1 = '/' ∨ s1 = '年') (hs2 : s2 = '.' ∨ s2 = '/' ∨ s2 = '月')
    (htl : tl = [] ∨ tl = ['日']) :
    jpDateNormalize (y ++ s1 :: (w1 ++ m ++ s2 :: (w2 ++ d ++ tl))) =
      y ++ '-' :: (m ++ '-' :: d) := by
  have htln : jpDateNormalize tl = [] := by
    rcases htl with rfl | rfl
    · rfl
    · decide
  have e : y ++ s1 :: (w1 ++ m ++ s2 :: (w2 ++ d ++ tl)) =
      y ++ ([s1] ++ (w1 ++ (m ++ ([s2] ++ (w2 ++ (d ++ tl)))))) := by simp
  rw [e, jpDateNormalize_app, jpDateNormalize_app, jpDateNormalize_app,
    jpDateNormalize_app, jpDateNormalize_app, jpDateNormalize_app,
    jpDateNormalize_app, jpDateNormalize_digits hy, jpDateNormalize_digits hm,
    jpDateNormalize_digits hd, jpDateNormalize_ws hw1, jpDateNormalize_ws hw2,
    jpDateNormalize_sep (by tauto), jpDateNormalize_sep (by tauto), htln]
  simp

theorem isCanonicalDate_of_parts {y m d : Str}
    (hy4 : y.length = 4) (hy : y.all pyDigit = true)
    (hm1 : 1 ≤ m.length) (hm2 : m.length ≤ 2) (hm : m.all pyDigit = true)
    (hd1 : 1 ≤ d.length) (hd2 : d.length ≤ 2) (hd : d.all pyDigit = true) :
    isCanonicalDate (zfill 4 y ++ '-' :: (zfill 2 m ++ '-' :: zfill 2 d)) = true := by
  have hzy : zfill 4 y = y := zfill_of_le (by omega)
  rcases y with _ | ⟨y1, _ | ⟨y2, _ | ⟨y3, _ | ⟨y4, _ | ⟨y5, yr⟩⟩⟩⟩⟩ <;>
    simp only [List.length] at hy4
  case nil => omega
  case cons.nil => omega
  case cons.cons.nil => omega
  case cons.cons.cons.nil => omega
  case cons.cons.cons.cons.cons => omega
  simp only [List.all_cons, List.all_nil, Bool.and_eq_true, and_true] at hy
  obtain ⟨hy1, hy2, hy3, hy4d⟩ := hy
  have hmz : zfill 2 m = ['0'].take (2 - m.length) ++ m ∧
      (zfill 2 m).all pyDigit = true ∧ (zfill 2 m).length = 2 := by
    rcases m with _ | ⟨m1, _ | ⟨m2, mr⟩⟩
    · simp at hm1
    · simp only [List.all_cons, List.all_nil, Bool.and_eq_true, and_true] at hm
      rw [zfill2_one hm]
      refine ⟨by simp, by simp [hm, (by decide : pyDigit '0' = true)], by simp⟩
    · rcases mr with _ | ⟨m3, mr⟩
      · rw [zfill_of_le (by simp)]
        simp only [List.all_cons, List.all_nil, Bool.and_eq_true, and_true] at hm
        refine ⟨by simp, by simp [hm.1, hm.2], by simp⟩
      · simp at hm2
  have hdz : (zfill 2 d).all pyDigit = true ∧ (zfill 2 d).length = 2 := by
    rcases d with _ | ⟨d1, _ | ⟨d2, dr⟩⟩
    · simp at hd1
    · simp only [List.all_cons, List.all_nil, Bool.and_eq_true, and_true] at hd
      rw [zfill2_one hd]
      exact ⟨by simp [hd, (by decide : pyDigit '0' = true)], by simp⟩
    · rcases dr with _ | ⟨d3, dr⟩
      · rw [zfill_of_le (by simp)]
        simp only [List.all_cons, List.all_nil, Bool.and_eq_true, and_true] at hd
        exact ⟨by simp [hd.1, hd.2], by simp⟩
      · simp at hd2
  rcases hm' : zfill 2 m with _ | ⟨a1, _ | ⟨a2, ar⟩⟩ <;> rw [hm'] at hmz <;>
    try simp at hmz
  rcases ar with _ | ⟨a3, ar⟩
  swap
  · exfalso
    have := hmz.2.2
    simp at this
  rcases hd' : zfill 2 d with _ | ⟨b1, _ | ⟨b2, br⟩⟩ <;> rw [hd'] at hdz <;>
    try simp at hdz
  rcases br with _ | ⟨b3, br⟩
  swap
  · exfalso
    have := hdz.2
    simp at this
  rw [hzy]
  simp only [isCanonicalDate, List.cons_append, List.nil_append]
  simp [hy1, hy2, hy3, hy4d, hmz.2.1.1, hmz.2.1.2, hdz.1.1, hdz.1.2]

theorem isLooseDate_of_parts {y m d : Str}
    (hy4 : y.length = 4) (hy : y.all pyDigit = true)
    (hm1 : 1 ≤ m.length) (hm2 : m.length ≤ 2) (hm : m.all pyDigit = true)
    (hd1 : 1 ≤ d.length) (hd2 : d.length ≤ 2) (hd : d.all pyDigit = true) :
    isLooseDate (y ++ '-' :: (m ++ '-' :: d)) = true := by
  unfold isLooseDate
  rw [pySplit_three y m d hy hm hd]
  simp [hy4, hy, hm1, hm2, hm, hd1, hd2, hd]

theorem canonical_from_group {g s : Str}
    (hng : normDate g = some s)
    (hshape : ∃ y s1 m s2 d tl, g = y ++ s1 :: (m ++ s2 :: (d ++ tl)) ∧
      y.length = 4 ∧ y.all pyDigit = true ∧
      (s1 = '年' ∨ s1 = '月' ∨ s1 = '.' ∨ s1 = '/' ∨ s1 = '-') ∧
      1 ≤ m.length ∧ m.length ≤ 2 ∧ m.all pyDigit = true ∧
      (s2 = '年' ∨ s2 = '月' ∨ s2 = '.' ∨ s2 = '/' ∨ s2 = '-') ∧
      1 ≤ d.length ∧ d.length ≤ 2 ∧ d.all pyDigit = true ∧
      (tl = [] ∨ tl = ['日'])) :
    isCanonicalDate s = true := by
  obtain ⟨y, s1, m, s2, d, tl, rfl, hy4, hy, hs1, hm1, hm2, hm, hs2, hd1, hd2, hd, htl⟩ :=
    hshape
  rw [normDate_shaped hy hm hd hs1 hs2 htl] at hng
  have hs := Option.some.inj hng
  rw [← hs]
  exact isCanonicalDate_of_parts hy4 hy hm1 hm2 hm hd1 hd2 hd

/-- C1 counterexample.  The Japanese rule pack's date path performs no
zero-padding: on the text `発行日 2024年3月1日` it returns `2024-3-1`,
which does not match `^\d{4}-\d{2}-\d{2}$`; so the claim fails on the
`extract_fields_jp` path. -/
theorem c1_counterexample :
    (extract_fields_jp (("発行日 2024年3月1日").toList)).date = some (("2024-3-1").toList) ∧
    isCanonicalDate (("2024-3-1").toList) = false := by
  refine ⟨by decide, by decide⟩

/-- C1 amended.  `InvoiceProcessor.extract_issue_date` of `app.py` always
returns a zero-padded canonical `YYYY-MM-DD` string; the rule pack's
`extract_fields_jp` returns a dash-separated `\d{4}-\d{1,2}-\d{1,2}`
string whose month and day are not zero-padded. -/
theorem c1_date_normalization_amended :
    (∀ t s : Str, extract_issue_date t = some s → isCanonicalDate s = true) ∧
    (∀ t s : Str, (extract_fields_jp t).date = some s → isLooseDate s = true) := by
  constructor
  · intro t s h
    unfold extract_issue_date at h
    have finish1 : ∀ {pat : Str → Option Str},
        (searchAt pat t).bind normDate = some s →
        (∀ {l g : Str}, pat l = some g → dateP3At l = some g ∨
          (∃ l', dateYMD (fun c => c = '/' || c = '-') l' = some g) ∨
          (∃ l', dateYMD (fun c => c = '.' || c = '-') l' = some g)) →
        isCanonicalDate s = true := by
      intro pat hp hinv
      obtain ⟨g, hsearch, hnd⟩ := Option.bind_eq_some.mp hp
      obtain ⟨l, hat⟩ := searchAt_eq_some hsearch
      rcases hinv hat with h3 | ⟨l', hY⟩ | ⟨l', hY⟩
      · obtain ⟨y, m, d, hg, hy4, hy, hm1, hm2, hm, hd1, hd2, hd⟩ := dateP3At_eq_some h3
        exact canonical_from_group hnd
          ⟨y, '年', m, '月', d, ['日'], hg, hy4, hy, by tauto, hm1, hm2, hm, by tauto,
            hd1, hd2, hd, Or.inr rfl⟩
      all_goals {
        obtain ⟨y, s1, m, s2, d, hg, hy4, hy, hs1, hm1, hm2, hm, hs2, hd1, hd2, hd⟩ :=
          dateYMD_eq_some hY
        simp only [Bool.or_eq_true, decide_eq_true_eq] at hs1 hs2
        refine canonical_from_group hnd
          ⟨y, s1, m, s2, d, [], by simpa using hg, hy4, hy, by tauto, hm1, hm2, hm, by tauto,
            hd1, hd2, hd, Or.inl rfl⟩ }
    rcases orElse_eq_some' h with h12 | ⟨_, h3⟩
    · rcases orElse_eq_some' h12 with h1 | ⟨_, h2⟩
      · refine finish1 h1 ?_
        intro l g hat
        unfold dateP1At at hat
        obtain ⟨r0, _, hq⟩ := Option.bind_eq_some.mp hat
        exact Or.inr (Or.inl ⟨_, hq⟩)
      · refine finish1 h2 ?_
        intro l g hat
        exact Or.inr (Or.inr ⟨l, hat⟩)
    · refine finish1 h3 ?_
      intro l g hat
      exact Or.inl hat
  · intro t s h
    simp only [extract_fields_jp] at h
    obtain ⟨g, hsearch, hval⟩ := Option.map_eq_some'.mp h
    obtain ⟨l, hat⟩ := searchAt_eq_some hsearch
    unfold jpDateAt at hat
    obtain ⟨r0, _, hq⟩ := Option.bind_eq_some.mp hat
    obtain ⟨y, s1, w1, m, s2, w2, d, tl, hg, hy4, hy, hs1, hw1, hm1, hm2, hm, hs2, hw2,
      hd1, hd2, hd, htl⟩ := jpDateGroupAt_eq_some hq
    subst hg
    rw [show y ++ s1 :: (w1 ++ m ++ s2 :: (w2 ++ d ++ tl)) =
        y ++ s1 :: (w1 ++ m ++ s2 :: (w2 ++ d ++ tl)) from rfl] at hval
    have hjn := jpDateNormalize_shaped hy hm hd hw1 hw2 hs1 hs2 htl
    rw [show w1 ++ m ++ s2 :: (w2 ++ d ++ tl) = w1 ++ m ++ s2 :: (w2 ++ d ++ tl) from rfl]
      at hjn
    rw [← hval]
    rw [show jpDateNormalize (y ++ s1 :: (w1 ++ m ++ s2 :: (w2 ++ d ++ tl))) =
        y ++ '-' :: (m ++ '-' :: d) from hjn]
    exact isLooseDate_of_parts hy4 hy hm1 hm2 hm hd1 hd2 hd

/-- C1 witness: the amended theorem evaluated on concrete texts for both
paths. -/
theorem c1_date_witness :
    isCanonicalDate (("2024-03-01").toList) = true ∧
    isLooseDate (("2024-3-1").toList) = true :=
  ⟨c1_date_normalization_amended.1 (("2024-03-01").toList) (("2024-03-01").toList)
      (by decide),
   c1_date_normalization_amended.2 (("納品日 2024年3月1日").toList) (("2024-3-1").toList)
      (by decide)⟩

theorem commaTriples_chars (l : Str) :
    (commaTriples l).1.all (fun c => c = ',' || pyDigit c) = true := by
  induction l using commaTriples.induct with
  | case1 a b c r hdig ih =>
    rw [commaTriples]
    split
    · rename_i hcond
      simp only [Bool.and_eq_true] at hdig
      simp only [List.all_cons, List.all_eq_true, Bool.and_eq_true, Bool.or_eq_true,
        decide_eq_true_eq]
      refine ⟨Or.inl trivial, Or.inr hdig.1.1, Or.inr hdig.1.2, Or.inr hdig.2, ?_⟩
      simpa [List.all_eq_true, Bool.or_eq_true, decide_eq_true_eq] using ih
    · rename_i hfalse
      exact absurd hdig hfalse
  | case2 a b c r hdig =>
    rw [commaTriples]
    split
    · rename_i hcond
      exact absurd hcond hdig
    · simp
  | case3 l hne =>
    rw [commaTriples.eq_def]
    split
    · rename_i a b c r
      exact absurd rfl (hne a b c r)
    · simp

theorem stripCommas_digits : ∀ {l : Str}, l.all pyDigit = true → stripCommas l = l := by
  intro l h
  induction l with
  | nil => rfl
  | cons c r ih =>
    simp only [List.all_cons, Bool.and_eq_true] at h
    have hc : c ≠ ',' := pyDigit_ne h.1 (by decide)
    simp [stripCommas, List.filter_cons, hc]
    simpa [stripCommas] using ih h.2

theorem stripCommas_commaDigits :
    ∀ {l : Str}, l.all (fun c => c = ',' || pyDigit c) = true →
      (stripCommas l).all pyDigit = true := by
  intro l h
  induction l with
  | nil => rfl
  | cons c r ih =>
    simp only [List.all_cons, Bool.and_eq_true, Bool.or_eq_true, decide_eq_true_eq] at h
    rcases h.1 with rfl | hd
    · simpa [stripCommas, List.filter_cons] using ih h.2
    · have hc : c ≠ ',' := pyDigit_ne hd (by decide)
      simp only [stripCommas, List.filter_cons]
      rw [if_pos (by simp [hc])]
      simp only [List.all_cons, Bool.and_eq_true]
      exact ⟨hd, by simpa [stripCommas] using ih h.2⟩

theorem try13_eq_some {n : Nat} {l g : Str} (hn : 1 ≤ n) (h : try13 n l = some g) :
    stripCommas g ≠ [] ∧ (stripCommas g).all pyDigit = true := by
  unfold try13 at h
  dsimp only at h
  split at h
  · rename_i hpre
    simp only [Bool.and_eq_true, decide_eq_true_eq] at hpre
    split at h
    · exact absurd h (by simp)
    · rename_i hcg
      have hg := Option.some.inj h
      subst hg
      have hsp : stripCommas (l.take n) = l.take n := stripCommas_digits hpre.2
      have hcd : (stripCommas (commaTriples (l.drop n)).1).all pyDigit = true :=
        stripCommas_commaDigits (commaTriples_chars (l.drop n))
      constructor
      · simp only [stripCommas, List.filter_append]
        intro hemp
        rcases List.append_eq_nil.mp hemp with ⟨h1, _⟩
        have : l.take n = [] := by
          have := hsp
          simp only [stripCommas] at this
          rw [this] at h1
          exact h1
        rw [this] at hpre
        simp at hpre
        omega
      · simp only [stripCommas, List.filter_append, List.all_append, Bool.and_eq_true]
        constructor
        · have := hpre.2
          rw [show (l.take n).filter (fun c => c ≠ ',') = l.take n from hsp]
          exact this
        · exact hcd
  · exact absurd h (by simp)

theorem jpNumGroup_eq_some {l g : Str} (h : jpNumGroup l = some g) :
    stripCommas g ≠ [] ∧ (stripCommas g).all pyDigit = true := by
  unfold jpNumGroup at h
  rcases orElse_eq_some' h with h12 | ⟨_, h34⟩
  · rcases orElse_eq_some' h12 with h1 | ⟨_, h2⟩
    · exact try13_eq_some (by omega) h1
    · exact try13_eq_some (by omega) h2
  · rcases orElse_eq_some' h34 with h3 | ⟨_, h4⟩
    · exact try13_eq_some (by omega) h3
    · dsimp only at h4
      split at h4
      · exact absurd h4 (by simp)
      · rename_i hne
        have hg := Option.some.inj h4
        subst hg
        have hall : (l.takeWhile pyDigit).all pyDigit = true := by
          simp only [List.all_eq_true]
          intro c hc
          exact List.mem_takeWhile_imp hc
        refine ⟨?_, by rw [stripCommas_digits hall]; exact hall⟩
        rw [stripCommas_digits hall]
        simpa using hne

theorem pyIntOpt_digits {s : Str} (hne : s ≠ []) (h : s.all pyDigit = true) :
    pyIntOpt s = some ((digitsVal s : ℤ)) := by
  rcases s with _ | ⟨c, r⟩
  · exact absurd rfl hne
  simp only [List.all_cons, Bool.and_eq_true] at h
  have h1 : c ≠ '-' := pyDigit_ne h.1 (by decide)
  have h2 : c ≠ '+' := pyDigit_ne h.1 (by decide)
  simp only [pyIntOpt, if_neg h1, if_neg h2]
  rw [if_pos (by simp [h.1, h.2])]

/-- C3.  The amount extractor of `app.py` is a total function: with zero
pattern matches it returns null; any returned value is the float parse of
the comma-stripped capture group of one of the four patterns; a
matched-but-unparseable group falls through to the remaining patterns.
The rule pack's amount is likewise the integer parse of its
comma-stripped capture group (always a nonempty digit string, so `int`
cannot fail). -/
theorem c3_amount_extractor_total :
    (∀ t : Str,
      searchAt amtP1At t = none → searchAt amtP2At t = none →
      searchAt amtP3At t = none → searchAt amtP4At t = none →
      extract_amount t = none) ∧
    (∀ (t : Str) (v : ℚ), extract_amount t = some v →
      ∃ g : Str, (searchAt amtP1At t = some g ∨ searchAt amtP2At t = some g ∨
        searchAt amtP3At t = some g ∨ searchAt amtP4At t = some g) ∧
        pyFloat (stripCommas g) = some v) ∧
    (∀ t g : Str, searchAt amtP1At t = some g → pyFloat (stripCommas g) = none →
      extract_amount t = (tryAmtPat amtP2At t).orElse (fun _ =>
        (tryAmtPat amtP3At t).orElse (fun _ => tryAmtPat amtP4At t))) ∧
    (∀ (t : Str) (n : ℤ), (extract_fields_jp t).amount = some n →
      ∃ g : Str, searchAt jpAmountAt (jpNormalize t) = some g ∧
        pyIntOpt (stripCommas g) = some n) := by
  refine ⟨?_, ?_, ?_, ?_⟩
  · intro t h1 h2 h3 h4
    unfold extract_amount tryAmtPat
    rw [h1, h2, h3, h4]
    rfl
  · intro t v h
    unfold extract_amount at h
    rcases orElse_eq_some' h with h12 | ⟨_, h34⟩
    · rcases orElse_eq_some' h12 with h1 | ⟨_, h2⟩
      · obtain ⟨g, hs, hp⟩ := Option.bind_eq_some.mp h1
        exact ⟨g, Or.inl hs, hp⟩
      · obtain ⟨g, hs, hp⟩ := Option.bind_eq_some.mp h2
        exact ⟨g, Or.inr (Or.inl hs), hp⟩
    · rcases orElse_eq_some' h34 with h3 | ⟨_, h4⟩
      · obtain ⟨g, hs, hp⟩ := Option.bind_eq_some.mp h3
        exact ⟨g, Or.inr (Or.inr (Or.inl hs)), hp⟩
      · obtain ⟨g, hs, hp⟩ := Option.bind_eq_some.mp h4
        exact ⟨g, Or.inr (Or.inr (Or.inr hs)), hp⟩
  · intro t g hs hp
    unfold extract_amount
    have h1 : tryAmtPat amtP1At t = none := by
      unfold tryAmtPat
      rw [hs]
      exact hp
    rw [h1]
    cases h2 : tryAmtPat amtP2At t <;> simp [Option.orElse]
  · intro t n h
    simp only [extract_fields_jp] at h
    obtain ⟨g, hs, hv⟩ := Option.map_eq_some'.mp h
    obtain ⟨l, hat⟩ := searchAt_eq_some hs
    unfold jpAmountAt at hat
    obtain ⟨r0, _, hq⟩ := Option.bind_eq_some.mp hat
    obtain ⟨hne, hall⟩ := jpNumGroup_eq_some hq
    refine ⟨g, hs, ?_⟩
    rw [pyIntOpt_digits hne hall, hv]

/-- C3 witness: the theorem's first and last conjuncts evaluated at
concrete texts. -/
theorem c3_amount_witness :
    extract_amount (("zz").toList) = none ∧
    (∃ g : Str, searchAt jpAmountAt (jpNormalize (("合計 1,234円").toList)) = some g ∧
      pyIntOpt (stripCommas g) = some 1234) :=
  ⟨c3_amount_extractor_total.1 (("zz").toList) (by decide) (by decide) (by decide)
      (by decide),
   c3_amount_extractor_total.2.2.2 (("合計 1,234円").toList) 1234 (by decide)⟩

theorem takeWhile_append_sep {p : Char → Bool} :
    ∀ {f : Str} {s : Char} {r : Str}, (∀ c ∈ f, p c = true) → p s = false →
      (f ++ s :: r).takeWhile p = f ∧ (f ++ s :: r).dropWhile p = s :: r := by
  intro f
  induction f with
  | nil =>
    intro s r _ hs
    simp [List.takeWhile_cons, List.dropWhile_cons, hs]
  | cons c f ih =>
    intro s r hf hs
    have hc : p c = true := hf c (by simp)
    obtain ⟨h1, h2⟩ := ih (s := s) (r := r) (fun x hx => hf x (by simp [hx])) hs
    simp [List.takeWhile_cons, List.dropWhile_cons, hc, h1, h2]

theorem parseQuoted_escape :
    ∀ (f rest : Str), rest.head? ≠ some '"' →
      parseQuoted (escQ f ++ '"' :: rest) = some (f, rest) := by
  intro f
  induction f with
  | nil =>
    intro rest hr
    rcases rest with _ | ⟨c, r⟩
    · show parseQuoted ('"' :: []) = some ([], [])
      rw [parseQuoted]
      simp
    · have hc : c ≠ '"' := fun h => hr (by simp [h])
      show parseQuoted ('"' :: c :: r) = some ([], c :: r)
      rw [parseQuoted]
      simp [hc]
  | cons c f ih =>
    intro rest hr
    by_cases hc : c = '"'
    · subst hc
      have he : escQ ('"' :: f) = '"' :: '"' :: escQ f := by
        simp [escQ]
      show parseQuoted (escQ ('"' :: f) ++ '"' :: rest) = _
      rw [he]
      show parseQuoted ('"' :: ('"' :: (escQ f ++ '"' :: rest))) = _
      rw [parseQuoted]
      simp [ih rest hr]
    · have he : escQ (c :: f) = c :: escQ f := by
        simp [escQ, hc]
      show parseQuoted (escQ (c :: f) ++ '"' :: rest) = _
      rw [he]
      show parseQuoted (c :: (escQ f ++ '"' :: rest)) = _
      rw [parseQuoted]
      simp [hc, ih rest hr]
      · intro r1 hcq _
        exact hc hcq
      · intro hcq
        exact hc hcq

theorem needsQuote_false_mem {f : Str} (h : needsQuote f = false) :
    ∀ c ∈ f, c ≠ ',' ∧ c ≠ '"' ∧ c ≠ '\x0d' ∧ c ≠ '\n' := by
  intro c hc
  simp only [needsQuote, List.any_eq_false] at h
  have hcf := h c hc
  simp only [Bool.or_eq_true, decide_eq_true_eq] at hcf
  push_neg at hcf
  tauto

theorem parseField_render (f : Str) (sep : Char) (r : Str)
    (hsep : sep = ',' ∨ sep = '\x0d') :
    parseField (renderField f ++ sep :: r) = (f, sep :: r) := by
  unfold renderField
  by_cases hq : needsQuote f = true
  · rw [if_pos hq]
    have e : ('"' :: (escQ f ++ ['"'])) ++ sep :: r =
        '"' :: (escQ f ++ '"' :: (sep :: r)) := by simp
    rw [e]
    simp only [parseField]
    rw [parseQuoted_escape f (sep :: r) (by rcases hsep with rfl | rfl <;> simp)]
    simp
  · rw [if_neg hq]
    have hmem := needsQuote_false_mem (by simpa using hq)
    have hp : ∀ c ∈ f, (fun x => !(decide (x = ',') || decide (x = '\x0d'))) c = true := by
      intro c hc
      obtain ⟨h1, _, h3, _⟩ := hmem c hc
      simp [h1, h3]
    have hps : (fun x => !(decide (x = ',') || decide (x = '\x0d'))) sep = false := by
      rcases hsep with rfl | rfl <;> simp
    rcases f with _ | ⟨c, f'⟩
    · have hsq : sep ≠ '"' := by rcases hsep with rfl | rfl <;> decide
      simp only [List.nil_append, parseField, if_neg hsq]
      obtain ⟨h1, h2⟩ :=
        takeWhile_append_sep (p := fun x => !(decide (x = ',') || decide (x = '\x0d')))
          (f := ([] : Str)) (s := sep) (r := r) (fun x hx => absurd hx (by simp)) hps
      simp only [List.nil_append] at h1 h2
      rw [h1, h2]
    · have hcq : c ≠ '"' := (hmem c (by simp)).2.1
      simp only [List.cons_append, parseField, if_neg hcq]
      obtain ⟨h1, h2⟩ :=
        takeWhile_append_sep (p := fun x => !(decide (x = ',') || decide (x = '\x0d')))
          (f := c :: f') (s := sep) (r := r) hp hps
      simp only [List.cons_append] at h1 h2
      rw [h1, h2]

theorem renderRow_cons (c : Str) (cs : List Str) (h : cs ≠ []) :
    renderRow (c :: cs) = renderField c ++ ',' :: renderRow cs := by
  rcases cs with _ | ⟨d, cs⟩
  · exact absurd rfl h
  · simp [renderRow, joinComma, List.map_cons]

theorem parseRecordF_render :
    ∀ (cs : List Str) (fuel : Nat) (r : Str), cs ≠ [] → cs.length ≤ fuel →
      parseRecordF fuel (renderRow cs ++ r) = some (cs, r) := by
  intro cs
  induction cs with
  | nil => intro fuel r h _; exact absurd rfl h
  | cons c cs ih =>
    intro fuel r _ hlen
    rcases fuel with _ | fuel
    · simp at hlen
    rcases cs with _ | ⟨d, cs'⟩
    · have e : renderRow [c] ++ r = renderField c ++ '\x0d' :: ('\n' :: r) := by
        simp [renderRow, joinComma]
      rw [e]
      simp only [parseRecordF]
      rw [parseField_render c '\x0d' ('\n' :: r) (Or.inr rfl)]
      rfl
    · have hne : (d :: cs' : List Str) ≠ [] := by simp
      have e : renderRow (c :: d :: cs') ++ r =
          renderField c ++ ',' :: (renderRow (d :: cs') ++ r) := by
        rw [renderRow_cons c (d :: cs') hne]
        simp
      rw [e]
      simp only [parseRecordF]
      rw [parseField_render c ',' (renderRow (d :: cs') ++ r) (Or.inl rfl)]
      show (parseRecordF fuel (renderRow (d :: cs') ++ r)).map
          (fun q => (c :: q.1, q.2)) = some (c :: d :: cs', r)
      rw [ih fuel r hne (by simp at hlen ⊢; omega)]
      rfl

theorem renderRow_length_pos (cs : List Str) : 2 ≤ (renderRow cs).length := by
  simp [renderRow, List.length_append]

theorem length_le_renderRow (cs : List Str) : cs.length ≤ (renderRow cs).length := by
  induction cs with
  | nil => simp [renderRow, joinComma]
  | cons c cs ih =>
    rcases cs with _ | ⟨d, cs'⟩
    · have h2 := renderRow_length_pos [c]
      simp only [List.length_cons, List.length_nil]
      omega
    · rw [renderRow_cons c (d :: cs') (by simp)]
      simp only [List.length_append, List.length_cons] at ih ⊢
      omega

theorem renderCsv_cons (row : List Str) (rows : List (List Str)) :
    renderCsv (row :: rows) = renderRow row ++ renderCsv rows := by
  simp [renderCsv]

theorem length_le_renderCsv (rows : List (List Str)) :
    rows.length ≤ (renderCsv rows).length := by
  induction rows with
  | nil => simp [renderCsv]
  | cons row rows ih =>
    rw [renderCsv_cons]
    have := renderRow_length_pos row
    simp only [List.length_append, List.length_cons]
    omega

theorem parseCsvF_render :
    ∀ (rows : List (List Str)) (fuel : Nat), (∀ row ∈ rows, row ≠ []) →
      rows.length ≤ fuel → parseCsvF fuel (renderCsv rows) = some rows := by
  intro rows
  induction rows with
  | nil =>
    intro fuel _ _
    show parseCsvF fuel [] = some []
    cases fuel <;> rfl
  | cons row rows ih =>
    intro fuel hne hlen
    rcases fuel with _ | fuel
    · simp at hlen
    rw [renderCsv_cons]
    rcases hl : renderRow row ++ renderCsv rows with _ | ⟨c, l'⟩
    · exfalso
      have h2 := renderRow_length_pos row
      have : (renderRow row ++ renderCsv rows).length = 0 := by rw [hl]; rfl
      simp only [List.length_append] at this
      omega
    · show parseCsvF (fuel + 1) (c :: l') = _
      simp only [parseCsvF]
      have hrec : parseRecordF ((c :: l').length + 1) (c :: l') =
          some (row, renderCsv rows) := by
        rw [← hl]
        apply parseRecordF_render row _ (renderCsv rows) (hne row (by simp))
        have h1 := length_le_renderRow row
        simp only [List.length_append]
        omega
      rw [hrec]
      show (parseCsvF fuel (renderCsv rows)).map (fun rs => row :: rs) = some (row :: rows)
      rw [ih fuel (fun s hs => hne s (by simp [hs])) (by simp at hlen ⊢; omega)]
      rfl

/-- C9 counterexample.  A buffered record with a null vendor and one with
an empty-string vendor serialize to identical CSV bytes (`None` is
written as an empty field), so re-parsing the export cannot reproduce the
original field values: the two distinct buffers are indistinguishable. -/
theorem c9_counterexample :
    export_csv [⟨("a.pdf").toList, none, none, none, 0, ("TRUE").toList, ("x").toList⟩] =
      export_csv
        [⟨("a.pdf").toList, none, none, some [], 0, ("TRUE").toList, ("x").toList⟩] ∧
    ([⟨("a.pdf").toList, none, none, none, 0, ("TRUE").toList, ("x").toList⟩] :
        List JpRow) ≠
      [⟨("a.pdf").toList, none, none, some [], 0, ("TRUE").toList, ("x").toList⟩] := by
  refine ⟨by decide, by decide⟩

/-- C9 amended.  Exporting the session buffer and re-parsing the CSV with
a conforming excel-dialect reader reproduces the string serialisation of
every field, in insertion order, under the header `COLS`: null and
numeric fields come back as their serialized string forms (null as the
empty string), not as their original typed values.  Byte-stability for
identical input holds because the export is a pure function of the
buffer. -/
theorem c9_csv_roundtrip_amended :
    ∀ rows : List JpRow,
      parseCsv (export_csv rows) = some (csvCols :: rows.map rowCells) := by
  intro rows
  unfold parseCsv export_csv
  apply parseCsvF_render
  · intro row hr
    rcases List.mem_cons.mp hr with rfl | hr
    · decide
    · obtain ⟨jr, _, hjr⟩ := List.mem_map.mp hr
      rw [← hjr]
      simp [rowCells]
  · have h1 := length_le_renderCsv (csvCols :: rows.map rowCells)
    omega
